import Mathlib

/-!
Verification development for the augsuggest predicate chooser and emitter
(`src/augsuggest.c`).  The C data structures and functions are shallowly
embedded below: C strings become `List Char`, nullable strings become
`Option (List Char)`, the per-position counter arrays (which the C grows in
chunks and zero-fills) become total functions `Nat → Nat` that are zero
outside the written range, and pointers to `struct group` / `struct tail`
become indices into the corresponding arena lists.  Undefined behaviour of
the C (dereferencing a null pointer, reading an uninitialized `last_c`,
passing NULL to `%s`) is modelled by `Option`-valued functions returning
`none`.  Numbers parsed by `strtoul` are modelled as `Nat` (positions in
real inputs are far below `ULONG_MAX`; the `ULONG_MAX` "no position"
sentinel is modelled as `none`).
-/

/-- C strings, as lists of characters. -/
abbrev Str := List Char

/-- The single-quote character (ASCII 39). -/
def squote : Char := Char.ofNat 39

/-- Update a total map at one index (models writing one cell of a C array). -/
def setFun (f : Nat → α) (i : Nat) (a : α) : Nat → α :=
  fun q => if q = i then a else f q

/-- `*s >= '0' && *s <= '9'` -/
def isDig (c : Char) : Bool := '0' ≤ c && c ≤ '9'

/-- `strtoul` on a digit string (base 10); overflow clamping is not modelled. -/
def digitsToNat (s : Str) : Nat :=
  s.foldl (fun n c => n * 10 + (c.toNat - '0'.toNat)) 0

/-- `str_next_pos()` from augsuggest.c, with the scanned-prefix bookkeeping made
explicit.  Given the remaining path, it returns
`(segPart, markerText, pos, rest)` where the input is
`segPart ++ markerText ++ rest`:
* for `[n]` (digits terminated by `]`): `segPart` ends before the `[`,
  `markerText` is `"[n]"`, `pos` is `some n`, `rest` starts after the `]`;
* for `/n` (digits terminated by `/` or end of string): `segPart` ends after
  the first `/`, `markerText` is the digits, `rest` keeps the second `/`;
* otherwise the whole string is consumed into `segPart` and `markerText` is
  empty.
The accumulator `pos0` models the C quirk that `*pos` is written by `strtoul`
even for a candidate that fails the terminator test, so a trailing failed
candidate leaves its number in `*pos`. -/
def strNextPosAux (pos0 : Option Nat) : Str → (Str × Str × Option Nat × Str)
  | [] => ([], [], pos0, [])
  | c :: rest =>
    if c = '[' && isDig (rest.headD ' ') && (rest.dropWhile isDig).headD ' ' = ']' then
      ([], c :: rest.takeWhile isDig ++ [']'],
       some (digitsToNat (rest.takeWhile isDig)), (rest.dropWhile isDig).tail)
    else if c = '/' && isDig (rest.headD ' ')
            && ((rest.dropWhile isDig).isEmpty || (rest.dropWhile isDig).headD ' ' = '/') then
      ([c], rest.takeWhile isDig, some (digitsToNat (rest.takeWhile isDig)), rest.dropWhile isDig)
    else if (c = '[' || c = '/') && isDig (rest.headD ' ') then
      let r := strNextPosAux (some (digitsToNat (rest.takeWhile isDig))) rest
      (c :: r.1, r.2.1, r.2.2.1, r.2.2.2)
    else
      let r := strNextPosAux pos0 rest
      (c :: r.1, r.2.1, r.2.2.1, r.2.2.2)

def str_next_pos (s : Str) : (Str × Str × Option Nat × Str) :=
  strNextPosAux none s

/-- The copy loop of `str_simplified_tail()`.  The C walks a pointer through
the tail; pointer advances past a recognised marker are modelled by the
`skip` counter (a positive `skip` drops that many already-recognised marker
characters), which keeps the recursion structural on the string:
* at `[` followed by digits and `]`: skip the digits and the `]` (the `[`
  itself is consumed here), emitting nothing;
* at `/` followed by digits ending at `/` or the end: emit `/seq::*` (or
  `/*` under `--noseq`) and skip the digits, resuming at the terminator;
* otherwise copy the character. -/
def strSimplifiedTailAux (noseq : Bool) : Nat → Str → Str
  | _, [] => []
  | skip+1, _ :: rest => strSimplifiedTailAux noseq skip rest
  | 0, c :: rest =>
    if c = '[' && isDig (rest.headD ' ') && (rest.dropWhile isDig).headD ' ' = ']' then
      strSimplifiedTailAux noseq ((rest.takeWhile isDig).length + 1) rest
    else if c = '/' && isDig (rest.headD ' ')
            && ((rest.dropWhile isDig).isEmpty || (rest.dropWhile isDig).headD ' ' = '/') then
      (if noseq then "/*".data else "/seq::*".data)
        ++ strSimplifiedTailAux noseq (rest.takeWhile isDig).length rest
    else
      c :: strSimplifiedTailAux noseq 0 rest

/-- `str_simplified_tail()`: delete every `[n]` whose digits are terminated by
`]`, and rewrite `/n` (digits terminated by `/` or end) to `/seq::*`
(`/*` under `--noseq`). -/
def str_simplified_tail (noseq : Bool) (s : Str) : Str :=
  strSimplifiedTailAux noseq 0 s

/-- One `struct path_segment`.  `group` is an index into the global group
arena (`NULL` becomes `none`); `position = none` models `ULONG_MAX`. -/
structure path_segment where
  head : Str
  segment : Str
  position : Option Nat
  simplified_tail : Str
  group : Option Nat
deriving DecidableEq

instance : Inhabited path_segment :=
  ⟨{ head := [], segment := [], position := none, simplified_tail := [], group := none }⟩

/-- The loop of `split_path()`: `done` is the already-consumed prefix of the
original path (the C keeps pointers into the original string), `rest` the
part still to scan.  The pointer advance `path_seg_start = path_seg_end`
past the consumed `segment ++ marker` characters is modelled by the `skip`
counter, keeping the recursion structural (`str_next_pos` always returns
`rest = segPart ++ markerText ++ rest'`, see `strNextPos_decomp`).
Group attachment (`add_segment_to_group`) is performed by the caller
(`ingest` below) on the segments in order, exactly as the C does
interleaved with this loop. -/
def splitPathAux (noseq : Bool) : Nat → Str → Str → List path_segment
  | _, _, [] => []
  | skip+1, done, _ :: rest => splitPathAux noseq skip done rest
  | 0, done, c :: rest =>
    let r := str_next_pos (c :: rest)
    { head := done ++ r.1, segment := r.1, position := r.2.2.1,
      simplified_tail := str_simplified_tail noseq r.2.2.2, group := none } ::
    splitPathAux noseq (r.1.length + r.2.1.length - 1) (done ++ r.1 ++ r.2.1) rest

/-- `split_path()` on an absolute path (group attachment done separately). -/
def split_path (noseq : Bool) (path : Str) : List path_segment :=
  splitPathAux noseq 0 [] path

/-- `value_cmp()` in the plain (`use_regexp == 0`) mode: returns the match
flag together with the number of leading characters in common. -/
def valueCmpPlain : Str → Str → (Bool × Nat)
  | [], [] => (true, 0)
  | [], _ :: _ => (false, 0)
  | _ :: _, [] => (false, 0)
  | c1 :: r1, c2 :: r2 =>
    if c1 = c2 then
      let r := valueCmpPlain r1 r2
      (r.1, r.2 + 1)
    else (false, 0)

/-- `value_cmp()` in the `use_regexp` mode: `]` on either side matches any
character (because `]` is rewritten to `.` in emitted regexps). -/
def valueCmpRegexp : Str → Str → (Bool × Nat)
  | [], [] => (true, 0)
  | [], _ :: _ => (false, 0)
  | _ :: _, [] => (false, 0)
  | c1 :: r1, c2 :: r2 =>
    if c1 = c2 || c1 = ']' || c2 = ']' then
      let r := valueCmpRegexp r1 r2
      (r.1, r.2 + 1)
    else (false, 0)

/-- `value_cmp()`: two NULLs match, a NULL never matches a value. -/
def value_cmp (rx : Bool) : Option Str → Option Str → (Bool × Nat)
  | none, none => (true, 0)
  | none, some _ => (false, 0)
  | some _, none => (false, 0)
  | some a, some b => if rx then valueCmpRegexp a b else valueCmpPlain a b

/-- Quote character chosen by `quote_value()` / `regexp_value()`: single
quotes unless the value contains one; double quotes if it contains `'` but
no `"`; single quotes with escaping when it contains both. -/
def quoteChar (v : Str) : Char :=
  if v.countP (· = squote) = 0 then squote
  else if v.countP (· = '"') = 0 then '"'
  else squote

/-- The copy loop of `quote_value()`. -/
def escapeQuoted (quote : Char) : Str → Str
  | [] => []
  | c :: rest =>
    if c = quote then '\\' :: quote :: escapeQuoted quote rest
    else if c = '\n' then '\\' :: 'n' :: escapeQuoted quote rest
    else if c = '\t' then '\\' :: 't' :: escapeQuoted quote rest
    else if c = '\\' then '\\' :: '\\' :: escapeQuoted quote rest
    else c :: escapeQuoted quote rest

/-- `quote_value()` (NULL handling is done at the call sites via `Option.map`). -/
def quote_value (v : Str) : Str :=
  quoteChar v :: escapeQuoted (quoteChar v) v ++ [quoteChar v]

/-- Characters `regexp_value()` escapes with a doubled backslash. -/
def regexpSpecial (c : Char) : Bool :=
  c = '*' || c = '?' || c = '.' || c = '(' || c = ')' || c = '^' || c = '$' || c = '|'

/-- The copy loop of `regexp_value()`: `k` is the source offset `s - value`.
After writing the (escaped) character at offset `k`, the C appends `.*` and
stops when `k >= max_len` and at least three source characters remain.  The
characters handled by the `continue` branches (quote, `\n`, `\t`, `\`, `]`)
skip that check, exactly as in the C. -/
def regexpBody (quote : Char) (maxLen : Nat) : Nat → Str → Str
  | _, [] => []
  | k, c :: rest =>
    if c = quote then '\\' :: quote :: regexpBody quote maxLen (k+1) rest
    else if c = '\n' then '\\' :: 'n' :: regexpBody quote maxLen (k+1) rest
    else if c = '\t' then '\\' :: 't' :: regexpBody quote maxLen (k+1) rest
    else if c = '\\' || c = ']' then '.' :: regexpBody quote maxLen (k+1) rest
    else
      let esc : Str :=
        if c = '[' then ['\\', c]
        else if regexpSpecial c then ['\\', '\\', c]
        else [c]
      if maxLen ≤ k ∧ 3 ≤ rest.length then esc ++ ['.', '*']
      else esc ++ regexpBody quote maxLen (k+1) rest

/-- `regexp_value()` (the quoted, regex-escaped, truncated value). -/
def regexp_value (v : Str) (maxLen : Nat) : Str :=
  quoteChar v :: regexpBody (quoteChar v) maxLen 0 v ++ [quoteChar v]

/-- Per-character escaping of `regexp_value()`'s copy loop. -/
def rvEsc (quote : Char) (c : Char) : Str :=
  if c = quote then ['\\', quote]
  else if c = '\n' then ['\\', 'n']
  else if c = '\t' then ['\\', 't']
  else if c = '\\' || c = ']' then ['.']
  else if c = '[' then ['\\', c]
  else if regexpSpecial c then ['\\', '\\', c]
  else [c]

/-- Characters at which `regexp_value()`'s truncation check runs: everything
except the quote, `\n`, `\t`, `\` and `]`, whose `continue` branches skip
the check. -/
def cutEligible (quote : Char) (c : Char) : Bool :=
  !(c = quote || c = '\n' || c = '\t' || c = '\\' || c = ']')

/-- `str_ischild()`: `child` extends `parent` and continues with `/`. -/
def str_ischild : Str → Str → Bool
  | [], child => child.headD ' ' = '/'
  | _ :: _, [] => false
  | p :: ps, c :: cs => if p = c then str_ischild ps cs else false

/-- `chosen_tail_state_t` (from augsuggest.h; the member names are those the
.c file uses).  `NOT_DONE` is the zero/initial state. -/
inductive chosen_tail_state_t where
  | NOT_DONE
  | FIRST_TAIL
  | CHOSEN_TAIL_START
  | CHOSEN_TAIL_WIP
  | CHOSEN_TAIL_DONE
  | CHOSEN_TAIL_PLUS_FIRST_TAIL_START
  | CHOSEN_TAIL_PLUS_FIRST_TAIL_WIP
  | CHOSEN_TAIL_PLUS_FIRST_TAIL_DONE
  | FIRST_TAIL_PLUS_POSITION
  | NO_CHILD_NODES
deriving DecidableEq

/-- `struct tail`.  The two per-position counter arrays are total maps that
are zero wherever the C arrays are zero-initialized (or not yet grown). -/
structure Tail where
  simple_tail : Str
  value : Option Str
  value_qq : Option Str
  value_re : Option Str
  tail_found_map : Nat → Nat
  tail_value_found_map : Nat → Nat
  tail_value_found : Nat

instance : Inhabited Tail :=
  ⟨{ simple_tail := [], value := none, value_qq := none, value_re := none,
     tail_found_map := fun _ => 0, tail_value_found_map := fun _ => 0,
     tail_value_found := 0 }⟩

/-- `struct subgroup`: `first_tail` is a tail index (C: pointer);
`matching_positions` is the 0-terminated C array as a list (without the
terminator). -/
structure AugSubgroup where
  first_tail : Nat
  matching_positions : List Nat

/-- `struct group`.  `all_tails` is the linked list in append order (tail
pointers become indices into it); `tails_at_position` are the per-position
stub lists, each a list of tail indices in append order.  Per-position
arrays are total maps defaulting to their C zero-initialization
(`NULL`/`NOT_DONE`/`0`), but `position_array_size` tracks the allocated
length as in the C: indexing at or beyond it in `append_tail_stub` is the
NULL/out-of-bounds dereference of the unallocated arrays;
`subgroup_position` defaults to 0 where the C
leaves it uninitialized (it is only ever read where it was written). -/
structure AugGroup where
  head : Str
  all_tails : List Tail
  max_position : Nat
  position_array_size : Nat
  tails_at_position : Nat → List Nat
  chosen_tail : Nat → Option Nat
  first_tail : Nat → Option Nat
  chosen_tail_state : Nat → chosen_tail_state_t
  subgroups : List AugSubgroup
  subgroup_position : Nat → Nat
  pretty_width_ct : Nat → Nat
  re_width_ct : Nat → Nat
  re_width_ft : Nat → Nat

/-- A fresh group as initialized by `find_or_create_group`. -/
def newGroup (head : Str) : AugGroup :=
  { head := head, all_tails := [], max_position := 0, position_array_size := 0,
    tails_at_position := fun _ => [], chosen_tail := fun _ => none,
    first_tail := fun _ => none, chosen_tail_state := fun _ => .NOT_DONE,
    subgroups := [], subgroup_position := fun _ => 0,
    pretty_width_ct := fun _ => 0, re_width_ct := fun _ => 0,
    re_width_ft := fun _ => 0 }

instance : Inhabited AugGroup := ⟨newGroup []⟩

/-- Dereference a tail pointer (index into the group's tail arena). -/
def tailAt (g : AugGroup) (i : Nat) : Tail := g.all_tails.getD i default

/-- Command-line state observed by the core: `--noseq`, `--pretty` and
`use_regexp` (0 = disabled, otherwise the minimum regexp length). -/
structure Config where
  noseq : Bool
  pretty : Bool
  use_regexp : Nat

/-- The default configuration (no flags). -/
def cfg0 : Config := { noseq := false, pretty := false, use_regexp := 0 }

/-- `find_or_create_group()`: look up `head` in the group arena, appending a
new zero-initialized group if absent; returns the arena and the index. -/
def find_or_create_group (groups : List AugGroup) (head : Str) : List AugGroup × Nat :=
  match groups.findIdx? (fun g => g.head = head) with
  | some i => (groups, i)
  | none => (groups ++ [newGroup head], groups.length)

/-- The counter update the scan loop of `find_or_create_tail()` applies to
one existing tail: every tail whose `simple_tail` matches gets
`tail_found_map[pos]++`, and those whose value also matches (under
`value_cmp`) additionally get `tail_value_found_map[pos]++` and
`tail_value_found++`. -/
def bumpTail (rx : Bool) (st : Str) (v : Option Str) (pos : Nat) (t : Tail) : Tail :=
  if t.simple_tail = st then
    let t1 := { t with tail_found_map := setFun t.tail_found_map pos (t.tail_found_map pos + 1) }
    if (value_cmp rx t.value v).1 then
      { t1 with
        tail_value_found_map := setFun t1.tail_value_found_map pos (t1.tail_value_found_map pos + 1),
        tail_value_found := t1.tail_value_found + 1 }
    else t1
  else t

/-- Index of the last element satisfying `p` (the C loop keeps overwriting
`found_tail` / `found_tail_value`, so the last match wins). -/
def lastIdxWhere (p : α → Bool) (l : List α) : Option Nat :=
  (l.findIdx? p).map (fun _ => l.length - 1 - ((l.reverse).findIdx p))

/-- `find_or_create_tail()`.  Returns the updated group and the index of the
found-or-created tail.  A new tail copies `tail_found_map[0..max_position]`
from the most recent tail with the same `simple_tail` (after that tail was
incremented) and sets `tail_found_map[pos]` to the running count and
`tail_value_found_map[pos]` to 1. -/
def find_or_create_tail (rx : Bool) (g : AugGroup) (st : Str) (v vqq : Option Str)
    (pos : Nat) : AugGroup × Nat :=
  let tails := g.all_tails.map (bumpTail rx st v pos)
  let found_tail := lastIdxWhere (fun t => t.simple_tail = st) g.all_tails
  let found_tail_value :=
    lastIdxWhere (fun t => t.simple_tail = st && (value_cmp rx t.value v).1) g.all_tails
  match found_tail_value with
  | some i => ({ g with all_tails := tails }, i)
  | none =>
    let tail_found_this_pos : Nat :=
      match found_tail with
      | some i => (tails.getD i default).tail_found_map pos
      | none => 1
    let base_map : Nat → Nat :=
      match found_tail with
      | some i => fun q => if q ≤ g.max_position then (tails.getD i default).tail_found_map q else 0
      | none => fun _ => 0
    let newTail : Tail :=
      { simple_tail := st, value := v, value_qq := vqq, value_re := none,
        tail_found_map := setFun base_map pos tail_found_this_pos,
        tail_value_found_map := setFun (fun _ => 0) pos 1,
        tail_value_found := 1 }
    ({ g with all_tails := tails ++ [newTail] }, tails.length)

/-- `append_tail_stub()`: append one stub (tail index) to
`group->tails_at_position[position]`.  The C indexes
`group->tails_at_position[position]` unconditionally: when `position` is
not below the allocated `position_array_size` (in particular when the
arrays are still `NULL`, size 0) this dereferences unallocated memory —
modelled as `none`. -/
def append_tail_stub (g : AugGroup) (ti : Nat) (pos : Nat) : Option AugGroup :=
  if pos < g.position_array_size then
    some { g with tails_at_position := setFun g.tails_at_position pos (g.tails_at_position pos ++ [ti]) }
  else none

/-- `grow_position_arrays()`: grow the per-position arrays to
`(new_max + 1) / 8 * 8 + 8` entries when `new_max` is not below the current
size (the fresh zero/NULL fill of the new entries is implicit in the
total-map model). -/
def grow_position_arrays (g : AugGroup) (new_max : Nat) : AugGroup :=
  if g.position_array_size ≤ new_max then
    { g with position_array_size := (new_max + 1) / 8 * 8 + 8 }
  else g

/-- `add_segment_to_group()`: find or create the group for `head`; when the
position exceeds `max_position`, record it and grow the arrays if needed
(the C grows only in that case, so a position-0 segment arriving at a fresh
group leaves the arrays unallocated); then record the (simplified tail,
value) observation and append the stub — which crashes (`none`) on the
unallocated arrays. -/
def add_segment_to_group (rx : Bool) (groups : List AugGroup) (head st : Str)
    (pos : Nat) (v vqq : Option Str) : Option (List AugGroup × Nat) :=
  let r := find_or_create_group groups head
  let g0 := r.1.getD r.2 default
  let g1 := if g0.max_position < pos then
      grow_position_arrays { g0 with max_position := pos } pos
    else g0
  let r2 := find_or_create_tail rx g1 st v vqq pos
  match append_tail_stub r2.1 r2.2 pos with
  | none => none
  | some g2 => some (r.1.set r.2 g2, r.2)

/-- One `struct augeas_path_value` with its segment chain. -/
structure Entry where
  path : Str
  value : Option Str
  value_qq : Option Str
  segments : List path_segment

/-- One step of the per-entry segment loop (the body of `split_path`'s
`add_segment_to_group` call): positional segments are added to their group
and get the group index recorded; `ULONG_MAX` segments pass through. -/
def ingestSegStep (rx : Bool) (value vqq : Option Str)
    (acc : List AugGroup × List path_segment) (s : path_segment) :
    Option (List AugGroup × List path_segment) :=
  match s.position with
  | some pos =>
    match add_segment_to_group rx acc.1 s.head s.simplified_tail pos value vqq with
    | none => none
    | some r2 => some (r2.1, acc.2 ++ [{ s with group := some r2.2 }])
  | none => some (acc.1, acc.2 ++ [s])

/-- Build one entry: split the path and add every positional segment to its
group in order, recording the group index in the segment (the C does this
interleaved inside `split_path`). -/
def ingestEntry (cfg : Config) (groups : List AugGroup) (path : Str) (value : Option Str) :
    Option (List AugGroup × Entry) :=
  let vqq := value.map quote_value
  let segs0 := split_path cfg.noseq path
  match segs0.foldlM (ingestSegStep (cfg.use_regexp ≠ 0) value vqq) (groups, []) with
  | none => none
  | some r => some (r.1, { path := path, value := value, value_qq := vqq, segments := r.2 })

/-- One step of the ingest loop over (path, value) pairs. -/
def ingestStep (cfg : Config) (acc : List AugGroup × List Entry) (pv : Str × Option Str) :
    Option (List AugGroup × List Entry) :=
  match ingestEntry cfg acc.1 pv.1 pv.2 with
  | none => none
  | some r => some (r.1, acc.2 ++ [r.2])

/-- Stage 1–3: ingest all (path, value) pairs in order (`none` models the
C crashing during ingest). -/
def ingest (cfg : Config) (raw : List (Str × Option Str)) :
    Option (List AugGroup × List Entry) :=
  raw.foldlM (ingestStep cfg) ([], [])

/-- Is this tail "significant" for `find_first_tail()`: a non-NULL,
non-empty value (`tail->value != NULL && tail->value[0] != '\0'`)? -/
def significantTail (t : Tail) : Bool :=
  match t.value with
  | some v => !v.isEmpty
  | none => false

/-- The loop of `find_first_tail()` on a non-empty stub list, returning the
suffix of the list starting at the chosen stub (the C returns the stub
pointer): skip a stub whose tail has no (non-empty) value while the next
stub's simplified tail is its child. -/
def findFirstTailSfx (g : AugGroup) (i : Nat) (rest : List Nat) : Nat × List Nat :=
  match rest with
  | [] => (i, [])
  | j :: rest' =>
    if significantTail (tailAt g i) then (i, rest)
    else if !str_ischild (tailAt g i).simple_tail (tailAt g j).simple_tail then (i, rest)
    else findFirstTailSfx g j rest'

/-- `find_first_tail()`: first significant stub of the list (NULL for an
empty list); returns the tail index. -/
def find_first_tail (g : AugGroup) : List Nat → Option Nat
  | [] => none
  | i :: rest => some (findFirstTailSfx g i rest).1

/-- The second-preference scan of `choose_tail()` over the stub suffix
starting at the first tail.  `pre` is the list of stubs already scanned
(the C's walk from `first_tail` to the candidate): a candidate is accepted
when (a) its `tail_value_found` is 1, (b) its tail is present at every
position `1..max_position`, and (c) no already-scanned stub has the same
simplified tail. -/
def tier2Scan (g : AugGroup) (pre : List Nat) : List Nat → Option Nat
  | [] => none
  | i :: rest =>
    let t := tailAt g i
    if t.tail_value_found = 1
        && (List.range' 1 g.max_position).all (fun q => !(t.tail_found_map q = 0))
        && pre.all (fun j => !((tailAt g j).simple_tail = t.simple_tail)) then
      some i
    else tier2Scan g (pre ++ [i]) rest

/-- `find_or_create_subgroup()`: look up the subgroup keyed by the first
tail (pointer identity = index equality); if absent, create it, recording
every position whose stub list contains that tail and writing the 1-based
rank of each such position into `group->subgroup_position`. -/
def find_or_create_subgroup (g : AugGroup) (ftIdx : Nat) : AugGroup × AugSubgroup :=
  match g.subgroups.find? (fun sg => sg.first_tail = ftIdx) with
  | some sg => (g, sg)
  | none =>
    let mp := (List.range' 1 g.max_position).filter
      (fun q => (g.tails_at_position q).contains ftIdx)
    let sg : AugSubgroup := { first_tail := ftIdx, matching_positions := mp }
    let sgpos : Nat → Nat := fun q =>
      if q ∈ mp then mp.indexOf q + 1 else g.subgroup_position q
    ({ g with subgroups := g.subgroups ++ [sg], subgroup_position := sgpos }, sg)

/-- The third-preference scan of `choose_tail()`: within the subgroup of the
first tail, the candidate's (tail, value) must be absent at every other
matching position while its tail is present at all of them, and (c) as in
tier 2. -/
def tier3Scan (g : AugGroup) (sg : AugSubgroup) (pos : Nat) (pre : List Nat) :
    List Nat → Option Nat
  | [] => none
  | i :: rest =>
    let t := tailAt g i
    if sg.matching_positions.all
          (fun q => q = pos || (t.tail_value_found_map q = 0 && !(t.tail_found_map q = 0)))
        && pre.all (fun j => !((tailAt g j).simple_tail = t.simple_tail)) then
      some i
    else tier3Scan g sg pos (pre ++ [i]) rest

/-- `choose_tail()`: the four-tier preference order.  Returns the updated
group (first-tail record, state, and possibly a new subgroup) and the chosen
tail index (`none` models the C returning NULL). -/
def choose_tail (g : AugGroup) (pos : Nat) : AugGroup × Option Nat :=
  match g.tails_at_position pos with
  | [] =>
    ({ g with chosen_tail_state := setFun g.chosen_tail_state pos .NO_CHILD_NODES }, none)
  | s0 :: rest =>
    let ft := findFirstTailSfx g s0 rest
    let g := { g with first_tail := setFun g.first_tail pos (some ft.1) }
    let g := if (tailAt g ft.1).tail_value_found = 1 then
        { g with chosen_tail_state := setFun g.chosen_tail_state pos .FIRST_TAIL }
      else g
    if g.chosen_tail_state pos = .FIRST_TAIL then (g, some ft.1)
    else
      match tier2Scan g [] (ft.1 :: ft.2) with
      | some i =>
        ({ g with chosen_tail_state := setFun g.chosen_tail_state pos .CHOSEN_TAIL_START },
         some i)
      | none =>
        let r := find_or_create_subgroup g ft.1
        match tier3Scan r.1 r.2 pos [ft.1] ft.2 with
        | some i =>
          let g3 := { r.1 with chosen_tail_state := setFun r.1.chosen_tail_state pos .CHOSEN_TAIL_PLUS_FIRST_TAIL_START }
          (g3, some i)
        | none =>
          let g4 := { r.1 with chosen_tail_state := setFun r.1.chosen_tail_state pos .FIRST_TAIL_PLUS_POSITION }
          (g4, some ft.1)

/-- Overwrite one tail's cached regexp string (`tail->value_re = ...`). -/
def setTailValueRe (g : AugGroup) (i : Nat) (re : Option Str) : AugGroup :=
  { g with all_tails := g.all_tails.set i { tailAt g i with value_re := re } }

/-- The body of `choose_re_width()` for one position: compute the maximal
`value_cmp` overlap of the chosen tail's value with every other tail sharing
its simplified tail (and, for a third-preference position, likewise for the
first tail), clamp from below by the `--regexp` minimum `L`, record both
widths, and cache the regexp strings.  `none` models the C dereferencing a
NULL `chosen_tail[position]` or `first_tail[position]`. -/
def chooseReWidthAt (L : Nat) (g : AugGroup) (pos : Nat) : Option AugGroup :=
  match g.chosen_tail pos with
  | none => none
  | some ci =>
    let ct := tailAt g ci
    let max_ct0 := (List.range g.all_tails.length).foldl
      (fun m i =>
        if i ≠ ci ∧ (tailAt g i).simple_tail = ct.simple_tail then
          max m (value_cmp (L != 0) (tailAt g i).value ct.value).2
        else m) 0
    let isT3 := g.chosen_tail_state pos = .CHOSEN_TAIL_PLUS_FIRST_TAIL_START
    let ftComputation : Option (Option Nat × Nat) :=
      if isT3 then
        match g.first_tail pos with
        | none => none
        | some fi =>
          if ci ≠ fi then
            some (some fi, (List.range g.all_tails.length).foldl
              (fun m i =>
                if i ≠ fi ∧ (tailAt g i).simple_tail = (tailAt g fi).simple_tail then
                  max m (value_cmp (L != 0) (tailAt g i).value (tailAt g fi).value).2
                else m) 0)
          else some (some fi, 0)
      else some (none, 0)
    match ftComputation with
    | none => none
    | some ftc =>
      let max_ct := max max_ct0 L
      let max_ft := max ftc.2 L
      let g := { g with re_width_ct := setFun g.re_width_ct pos max_ct,
                        re_width_ft := setFun g.re_width_ft pos max_ft }
      let g := setTailValueRe g ci (ct.value.map (fun v => regexp_value v max_ct))
      if isT3 then
        match ftc.1 with
        | some fi =>
          if ci = fi then some g
          else some (setTailValueRe g fi
            ((tailAt g fi).value.map (fun v => regexp_value v max_ft)))
        | none => none
      else some g

/-- `choose_re_width()`: the per-position pass over `1..max_position`. -/
def choose_re_width (L : Nat) (g : AugGroup) : Option AugGroup :=
  (List.range' 1 g.max_position).foldlM (fun g pos => chooseReWidthAt L g pos) g

/-- First pass of `choose_pretty_width()`: seed `pretty_width_ct[pos]` with
the rendered length of the pretty tail's value (the first tail for a
third-preference position, the chosen tail otherwise). -/
def choosePrettyWidthPass1At (rx : Bool) (g : AugGroup) (pos : Nat) : Option AugGroup :=
  let pt? := if g.chosen_tail_state pos = .CHOSEN_TAIL_PLUS_FIRST_TAIL_START
             then g.first_tail pos else g.chosen_tail pos
  match pt? with
  | none => none
  | some pi =>
    let t := tailAt g pi
    let len := if rx then (t.value_re.getD []).length else (t.value_qq.getD []).length
    some { g with pretty_width_ct := setFun g.pretty_width_ct pos len }

/-- Second pass of `choose_pretty_width()` for one position: scan the
positions from `position` up, take the running maximum (ignoring values over
30) over positions sharing the chosen simplified tail, writing the running
maximum back as it goes, and finally store the capped maximum at
`position`. -/
def choosePrettyWidthPass2At (g : AugGroup) (pos : Nat) : Option AugGroup :=
  match g.chosen_tail pos with
  | none => none
  | some ci =>
    let cst := (tailAt g ci).simple_tail
    let r := (List.range' pos (g.max_position + 1 - pos)).foldlM
      (fun (acc : AugGroup × Nat) ps =>
        match acc.1.chosen_tail ps with
        | none => none
        | some ci2 =>
          if (tailAt acc.1 ci2).simple_tail = cst then
            let value_len := acc.1.pretty_width_ct ps
            let max_width := if value_len ≤ 30 then max acc.2 value_len else acc.2
            some ({ acc.1 with pretty_width_ct := setFun acc.1.pretty_width_ct ps max_width },
                  max_width)
          else some acc) (g, 0)
    match r with
    | none => none
    | some r2 =>
      some { r2.1 with pretty_width_ct := setFun r2.1.pretty_width_ct pos (min r2.2 30) }

/-- `choose_pretty_width()`: both passes over `1..max_position`. -/
def choose_pretty_width (rx : Bool) (g : AugGroup) : Option AugGroup :=
  match (List.range' 1 g.max_position).foldlM
          (fun g pos => choosePrettyWidthPass1At rx g pos) g with
  | none => none
  | some g => (List.range' 1 g.max_position).foldlM
      (fun g pos => choosePrettyWidthPass2At g pos) g

/-- The per-group body of `choose_all_tails()`: fill `chosen_tail[]` (and
`first_tail[]`, states, subgroups) for every position, then the optional
width passes. -/
def chooseTailStep (g : AugGroup) (pos : Nat) : AugGroup :=
  let r := choose_tail g pos
  { r.1 with chosen_tail := setFun r.1.chosen_tail pos r.2 }

def chooseAllTailsGroup (cfg : Config) (g : AugGroup) : Option AugGroup :=
  let g2 := (List.range' 1 g.max_position).foldl chooseTailStep g
  match (if cfg.use_regexp ≠ 0 then choose_re_width cfg.use_regexp g2 else some g2) with
  | none => none
  | some g3 => if cfg.pretty then choose_pretty_width (cfg.use_regexp ≠ 0) g3 else some g3

/-- `choose_all_tails()` over the whole group arena. -/
def choose_all_tails (cfg : Config) (groups : List AugGroup) : Option (List AugGroup) :=
  groups.mapM (chooseAllTailsGroup cfg)

/-- `simple_tail_expr()`: `/path` becomes `path`, the empty tail becomes `.`. -/
def simple_tail_expr (st : Str) : Str :=
  match st with
  | '/' :: rest => rest
  | [] => ['.']
  | other => other

/-- `printf("%*s", -w, s)`: left-justified padding to field width `w`. -/
def padRight (s : Str) (w : Nat) : Str :=
  s ++ List.replicate (w - s.length) ' '

/-- The segment text printed before any predicate: a segment ending in `/`
(a `.../123` sequential position) is followed by `seq::*` (or `*` under
`--noseq`). -/
def segText (cfg : Config) (seg : Str) (lastC : Char) : Str :=
  if lastC = '/' then seg ++ (if cfg.noseq then "*".data else "seq::*".data)
  else seg

/-- The plain predicate of `output_segment()` (states `FIRST_TAIL`,
`CHOSEN_TAIL_START` after its fallthrough, `CHOSEN_TAIL_DONE`,
`FIRST_TAIL_PLUS_POSITION`): `none` models `printf("%s", NULL)` on a missing
cached string. -/
def renderPlain (cfg : Config) (g : AugGroup) (pos : Nat) (ct : Tail) : Option Str :=
  match ct.value with
  | none => some ('[' :: simple_tail_expr ct.simple_tail ++ "]".data)
  | some _ =>
    if cfg.use_regexp ≠ 0 then
      match ct.value_re with
      | some re => some ('[' :: simple_tail_expr ct.simple_tail ++ "=~regexp(".data
          ++ padRight re (g.pretty_width_ct pos) ++ ")]".data)
      | none => none
    else
      match ct.value_qq with
      | some qq => some ('[' :: simple_tail_expr ct.simple_tail ++ "=".data
          ++ padRight qq (g.pretty_width_ct pos) ++ "]".data)
      | none => none

/-- The `CHOSEN_TAIL_WIP` predicate, carrying the `or count(...)=0`
disjunct. -/
def renderWip (cfg : Config) (g : AugGroup) (pos : Nat) (ct : Tail) : Option Str :=
  match ct.value with
  | none => some ('[' :: simple_tail_expr ct.simple_tail ++ " or count(".data
      ++ simple_tail_expr ct.simple_tail ++ ")=0]".data)
  | some _ =>
    if cfg.use_regexp ≠ 0 then
      match ct.value_re with
      | some re => some ('[' :: simple_tail_expr ct.simple_tail ++ "=~regexp(".data
          ++ padRight re (g.pretty_width_ct pos) ++ ") or count(".data
          ++ simple_tail_expr ct.simple_tail ++ ")=0]".data)
      | none => none
    else
      match ct.value_qq with
      | some qq => some ('[' :: simple_tail_expr ct.simple_tail ++ "=".data
          ++ padRight qq (g.pretty_width_ct pos) ++ " or count(".data
          ++ simple_tail_expr ct.simple_tail ++ ")=0]".data)
      | none => none

/-- The `CHOSEN_TAIL_PLUS_FIRST_TAIL_START` / `..._DONE` predicate (both
print the same four forms). -/
def renderPlusStart (cfg : Config) (g : AugGroup) (pos : Nat) (ft ct : Tail) : Option Str :=
  match ft.value with
  | none =>
    if cfg.use_regexp ≠ 0 then
      match ct.value_re with
      | some re => some ('[' :: simple_tail_expr ft.simple_tail ++ " and ".data
          ++ simple_tail_expr ct.simple_tail ++ "=~regexp(".data ++ re ++ ")]".data)
      | none => none
    else
      match ct.value_qq with
      | some qq => some ('[' :: simple_tail_expr ft.simple_tail ++ " and ".data
          ++ simple_tail_expr ct.simple_tail ++ "=".data ++ qq ++ "]".data)
      | none => none
  | some _ =>
    if cfg.use_regexp ≠ 0 then
      match ft.value_re, ct.value_re with
      | some fre, some re => some ('[' :: simple_tail_expr ft.simple_tail ++ "=~regexp(".data
          ++ padRight fre (g.pretty_width_ct pos) ++ ") and ".data
          ++ simple_tail_expr ct.simple_tail ++ "=~regexp(".data ++ re ++ ")]".data)
      | _, _ => none
    else
      match ft.value_qq, ct.value_qq with
      | some fqq, some qq => some ('[' :: simple_tail_expr ft.simple_tail ++ "=".data
          ++ padRight fqq (g.pretty_width_ct pos) ++ " and ".data
          ++ simple_tail_expr ct.simple_tail ++ "=".data ++ qq ++ "]".data)
      | _, _ => none

/-- The `CHOSEN_TAIL_PLUS_FIRST_TAIL_WIP` predicate (note the trailing
space before `]` in the two value-bearing first-tail forms, exactly as in
the C format strings). -/
def renderPlusWip (cfg : Config) (g : AugGroup) (pos : Nat) (ft ct : Tail) : Option Str :=
  match ft.value with
  | none =>
    if cfg.use_regexp ≠ 0 then
      match ct.value_re with
      | some re => some ('[' :: simple_tail_expr ft.simple_tail ++ " and ( ".data
          ++ simple_tail_expr ct.simple_tail ++ "=~regexp(".data ++ re ++ ") or count(".data
          ++ simple_tail_expr ct.simple_tail ++ ")=0 )]".data)
      | none => none
    else
      match ct.value_qq with
      | some qq => some ('[' :: simple_tail_expr ft.simple_tail ++ " and ( ".data
          ++ simple_tail_expr ct.simple_tail ++ "=".data ++ qq ++ " or count(".data
          ++ simple_tail_expr ct.simple_tail ++ ")=0 )]".data)
      | none => none
  | some _ =>
    if cfg.use_regexp ≠ 0 then
      match ft.value_re, ct.value_re with
      | some fre, some re => some ('[' :: simple_tail_expr ft.simple_tail ++ "=~regexp(".data
          ++ padRight fre (g.pretty_width_ct pos) ++ ") and ( ".data
          ++ simple_tail_expr ct.simple_tail ++ "=~regexp(".data ++ re ++ ") or count(".data
          ++ simple_tail_expr ct.simple_tail ++ ")=0 ) ]".data)
      | _, _ => none
    else
      match ft.value_qq, ct.value_qq with
      | some fqq, some qq => some ('[' :: simple_tail_expr ft.simple_tail ++ "=".data
          ++ padRight fqq (g.pretty_width_ct pos) ++ " and ( ".data
          ++ simple_tail_expr ct.simple_tail ++ "=".data ++ qq ++ " or count(".data
          ++ simple_tail_expr ct.simple_tail ++ ")=0 ) ]".data)
      | _, _ => none

/-- `output_segment()`.  Returns the text printed to standard output for
this segment, the diagnostics printed to standard error, and the updated
group arena (the per-position emission state machine lives in the group).
`none` models the C crashing on undefined behaviour (uninitialized `last_c`
on an empty segment, dereferencing a NULL `chosen_tail`/`first_tail`,
`strcmp`/`printf` on NULL). -/
def output_segment (cfg : Config) (groups : List AugGroup) (seg : path_segment)
    (value_qq : Option Str) : Option (Str × List Str × List AugGroup) :=
  match seg.segment.getLast? with
  | none => none
  | some lastC =>
    let base := segText cfg seg.segment lastC
    match seg.group with
    | none => some (base, [], groups)
    | some gi =>
      let g := groups.getD gi default
      let pos := seg.position.getD 0
      let chosen? := g.chosen_tail pos
      let diags : List Str := match chosen? with
        | none => ["chosen_tail==NULL ???".data]
        | some _ => []
      let ft? := find_first_tail g (g.tails_at_position pos)
      match g.chosen_tail_state pos with
      | .NO_CHILD_NODES =>
        some (base ++ (if lastC = '/' then [] else "[*]".data), diags, groups)
      | .CHOSEN_TAIL_START =>
        match chosen? with
        | none => none
        | some ci =>
          match renderPlain cfg g pos (tailAt g ci) with
          | none => none
          | some pred =>
            let g2 := { g with chosen_tail_state := setFun g.chosen_tail_state pos .CHOSEN_TAIL_WIP }
            some (base ++ pred, diags, groups.set gi g2)
      | .FIRST_TAIL =>
        match chosen? with
        | none => none
        | some ci =>
          match renderPlain cfg g pos (tailAt g ci) with
          | none => none
          | some pred => some (base ++ pred, diags, groups)
      | .CHOSEN_TAIL_DONE =>
        match chosen? with
        | none => none
        | some ci =>
          match renderPlain cfg g pos (tailAt g ci) with
          | none => none
          | some pred => some (base ++ pred, diags, groups)
      | .FIRST_TAIL_PLUS_POSITION =>
        match chosen? with
        | none => none
        | some ci =>
          match renderPlain cfg g pos (tailAt g ci) with
          | none => none
          | some pred =>
            some (base ++ pred ++ '[' :: (Nat.repr (g.subgroup_position pos)).data ++ "]".data,
                  diags, groups)
      | .CHOSEN_TAIL_WIP =>
        match chosen? with
        | none => none
        | some ci =>
          let ct := tailAt g ci
          match renderWip cfg g pos ct with
          | none => none
          | some pred =>
            if ct.simple_tail = seg.simplified_tail then
              match ct.value_qq, value_qq with
              | some a, some b =>
                if a = b then
                  let g2 := { g with chosen_tail_state := setFun g.chosen_tail_state pos .CHOSEN_TAIL_DONE }
                  some (base ++ pred, diags, groups.set gi g2)
                else some (base ++ pred, diags, groups)
              | _, _ => none
            else some (base ++ pred, diags, groups)
      | .CHOSEN_TAIL_PLUS_FIRST_TAIL_START =>
        match chosen?, ft? with
        | some ci, some fi =>
          match renderPlusStart cfg g pos (tailAt g fi) (tailAt g ci) with
          | none => none
          | some pred =>
            let g2 := { g with chosen_tail_state := setFun g.chosen_tail_state pos .CHOSEN_TAIL_PLUS_FIRST_TAIL_WIP }
            some (base ++ pred, diags, groups.set gi g2)
        | _, _ => none
      | .CHOSEN_TAIL_PLUS_FIRST_TAIL_WIP =>
        match chosen?, ft? with
        | some ci, some fi =>
          let ct := tailAt g ci
          match renderPlusWip cfg g pos (tailAt g fi) ct with
          | none => none
          | some pred =>
            if ct.simple_tail = seg.simplified_tail then
              match ct.value_qq, value_qq with
              | some a, some b =>
                if a = b then
                  let g2 := { g with chosen_tail_state := setFun g.chosen_tail_state pos .CHOSEN_TAIL_PLUS_FIRST_TAIL_DONE }
                  some (base ++ pred, diags, groups.set gi g2)
                else some (base ++ pred, diags, groups)
              | _, _ => none
            else some (base ++ pred, diags, groups)
        | _, _ => none
      | .CHOSEN_TAIL_PLUS_FIRST_TAIL_DONE =>
        match chosen?, ft? with
        | some ci, some fi =>
          match renderPlusStart cfg g pos (tailAt g fi) (tailAt g ci) with
          | none => none
          | some pred => some (base ++ pred, diags, groups)
        | _, _ => none
      | .NOT_DONE =>
        match chosen? with
        | none => none
        | some ci =>
          match (tailAt g ci).value_qq with
          | none => none
          | some qq =>
            some (base ++ "[ ".data ++ simple_tail_expr (tailAt g ci).simple_tail
              ++ "=".data ++ qq ++ " ]".data, diags, groups)

/-- `output_path()`: `set `, every segment in order (threading the emission
state), then the quoted value (or nothing for a NULL value). -/
def output_path (cfg : Config) (groups : List AugGroup) (e : Entry) :
    Option (Str × List Str × List AugGroup) :=
  match e.segments.foldlM
      (fun (acc : Str × List Str × List AugGroup) seg =>
        match output_segment cfg acc.2.2 seg e.value_qq with
        | none => none
        | some r => some (acc.1 ++ r.1, acc.2.1 ++ r.2.1, r.2.2))
      ("set ".data, ([] : List Str), groups) with
  | none => none
  | some r =>
    let line := match e.value_qq with
      | some qq => r.1 ++ ' ' :: qq
      | none => r.1
    some (line, r.2.1, r.2.2)

/-- The value normalization at the top of the `output()` loop: an empty
string counts as NULL. -/
def normalizeValue : Option Str → Option Str
  | some v => if v.isEmpty then none else some v
  | none => none

/-- `output()`: emit entries in order, suppressing an entry whose
(normalized) value is NULL when its path is a `str_ischild` prefix of the
immediately following entry's path; under `--pretty` a blank line separates
entries whose first segments have different groups or positions.  Returns
the stdout lines (a blank line is `[]`), stderr diagnostics, and the final
arena. -/
def output (cfg : Config) (groups : List AugGroup) :
    List Entry → Option (List Str × List Str × List AugGroup)
  | [] => some ([], [], groups)
  | e :: rest =>
    let value := normalizeValue e.value
    if value = none && (match rest with
        | e' :: _ => str_ischild e.path e'.path
        | [] => false) then
      output cfg groups rest
    else
      match output_path cfg groups e with
      | none => none
      | some r =>
        let blank? : Option (List Str) :=
          if cfg.pretty then
            match rest with
            | e' :: _ =>
              match e.segments, e'.segments with
              | s :: _, s' :: _ =>
                if s.group ≠ s'.group ∨ (s.group ≠ none ∧ s.position ≠ s'.position) then
                  some [[]]
                else some []
              | _, _ => none
            | [] => some []
          else some []
        match blank? with
        | none => none
        | some blank =>
          match output cfg r.2.2 rest with
          | none => none
          | some r2 => some (r.1 :: blank ++ r2.1, r.2.1 ++ r2.2.1, r2.2.2)

/-- The whole pipeline on a list of (path, value) pairs, as `main()` runs it
after querying the tree: ingest, choose, emit.  Result is the list of
emitted stdout lines (`none` models a crash). -/
def run_pipeline (cfg : Config) (raw : List (Str × Option Str)) : Option (List Str) :=
  match ingest cfg raw with
  | none => none
  | some r =>
    match choose_all_tails cfg r.1 with
    | none => none
    | some groups =>
      match output cfg groups r.2 with
      | none => none
      | some r2 => some r2.1

/-- Sequential emission of a list of (segment, quoted value) pairs through
`output_segment` (the per-position slice of the emission loop), collecting
the printed predicate strings and threading the state machine. -/
def emitSeq (cfg : Config) (groups : List AugGroup) :
    List (path_segment × Str) → Option (List Str × List AugGroup)
  | [] => some ([], groups)
  | e :: rest =>
    match output_segment cfg groups e.1 (some e.2) with
    | none => none
    | some r =>
      match emitSeq cfg r.2.2 rest with
      | none => none
      | some r2 => some (r.1 :: r2.1, r2.2)

/-- Each entry paired with its immediate successor (the lookahead
`all_augeas_paths[ndx+1]` of the `output()` loop). -/
def zipNexts : List Entry → List (Entry × Option Entry)
  | [] => []
  | [e] => [(e, none)]
  | e :: e' :: rest => (e, some e') :: zipNexts (e' :: rest)

/-- The suppression test of `output()`: normalized-NULL value and the next
entry's path extends this one's. -/
def suppressEntry (e : Entry) (nx : Option Entry) : Bool :=
  normalizeValue e.value = none && match nx with
    | some e' => str_ischild e.path e'.path
    | none => false

/-- The subsequence of entries that `output()` actually emits. -/
def unsuppressedEntries (es : List Entry) : List Entry :=
  ((zipNexts es).filter (fun p => !suppressEntry p.1 p.2)).map (fun p => p.1)

/-- Emission of a list of entries with no suppression and no pretty blank
lines: one `output_path` line per entry, in order. -/
def outputAll (cfg : Config) (groups : List AugGroup) :
    List Entry → Option (List Str × List Str × List AugGroup)
  | [] => some ([], [], groups)
  | e :: rest =>
    match output_path cfg groups e with
    | none => none
    | some r =>
      match outputAll cfg r.2.2 rest with
      | none => none
      | some r2 => some (r.1 :: r2.1, r.2.1 ++ r2.2.1, r2.2.2)

/-- Replace one tail's value by NULL (used to compare the treatment of
empty-string and NULL values). -/
def setTailValueNone (g : AugGroup) (k : Nat) : AugGroup :=
  { g with all_tails := g.all_tails.set k { tailAt g k with value := none } }

/-- A one-tail group whose only tail carries an empty-string value (a
fixture for comparing empty-string and NULL treatment). -/
def emptyValueGroup : AugGroup :=
  { newGroup [] with all_tails := [{ (default : Tail) with value := some ([] : Str) }] }

/-- A one-position group whose single tail is chosen and carries the value
`ab` (a fixture for the regexp-width computation). -/
def reWidthFixtureGroup : AugGroup :=
  { newGroup [] with
      all_tails := [{ (default : Tail) with value := some ('a' :: 'b' :: []) }],
      chosen_tail := fun _ => some 0, max_position := 1 }

/-- A group whose position 1 is in the third-preference state, exercising
the first-tail branch of `choose_re_width`. -/
def t3FixtureGroup : AugGroup :=
  { newGroup [] with
      all_tails := [{ (default : Tail) with value := some ('u' :: []) },
                    { (default : Tail) with value := some ('w' :: []) }],
      chosen_tail := fun _ => some 1,
      first_tail := fun _ => some 0,
      chosen_tail_state := fun _ => .CHOSEN_TAIL_PLUS_FIRST_TAIL_START,
      max_position := 1 }

/-- Condition (b) of the tier-2 scan, stated declaratively: the tail occurs
at every position `1..max_position`. -/
def tier2CondB (g : AugGroup) (t : Tail) : Prop :=
  ∀ q ∈ List.range' 1 g.max_position, t.tail_found_map q ≠ 0

/-- The full tier-2 acceptance condition for candidate stub `i` after the
stubs in `pre` have been scanned: (a) unique (tail, value) in the group,
(b) tail present at every position, (c) no scanned stub shares the
simplified tail. -/
def tier2Cond (g : AugGroup) (pre : List Nat) (i : Nat) : Prop :=
  (tailAt g i).tail_value_found = 1 ∧ tier2CondB g (tailAt g i) ∧
  ∀ j ∈ pre, (tailAt g j).simple_tail ≠ (tailAt g i).simple_tail

/-- A two-position, three-tail group (ingested from four concrete entries)
whose first tail is not unique, so tier 2 must decide (a fixture for the
second-preference scan). -/
def tier2FixtureGroup : AugGroup :=
  ((ingest cfg0 [("/f/1/a".data, some "u".data), ("/f/1/b".data, some "x".data),
                 ("/f/2/a".data, some "u".data), ("/f/2/b".data, some "y".data)]).getD
    ([], [])).1.getD 0 default

instance tier2CondDecidable (g : AugGroup) (pre : List Nat) (i : Nat) :
    Decidable (tier2Cond g pre i) :=
  decidable_of_iff ((tailAt g i).tail_value_found = 1 ∧
    (∀ q ∈ List.range' 1 g.max_position, (tailAt g i).tail_found_map q ≠ 0) ∧
    ∀ j ∈ pre, (tailAt g j).simple_tail ≠ (tailAt g i).simple_tail) Iff.rfl

/-- The match test of `output_segment()`'s `CHOSEN_TAIL_WIP` case: the
record's simplified tail equals the chosen tail's simple tail and the quoted
values agree. -/
def matchesChosen (ct : Tail) (seg : path_segment) (cq q : Str) : Bool :=
  (ct.simple_tail = seg.simplified_tail) && (cq = q)

/-- The fully disambiguated arena of the four-entry tier-2 example (a
fixture for the emission state machine). -/
def c1FixtureGroups : List AugGroup :=
  (choose_all_tails cfg0 ((ingest cfg0
    [("/f/1/a".data, some "u".data), ("/f/1/b".data, some "x".data),
     ("/f/2/a".data, some "u".data), ("/f/2/b".data, some "y".data)]).getD ([], [])).1).getD []

/-- A position-1 segment of that fixture whose simplified tail is the chosen
tail `/b`. -/
def c1FixtureSeg : path_segment :=
  { head := "/f/".data, segment := "/f/".data, position := some 1,
    simplified_tail := "/b".data, group := some 0 }

/-- A position-1 segment of the same shape whose simplified tail is `/a`
(not the chosen tail). -/
def c1FixtureSegA : path_segment :=
  { head := "/f/".data, segment := "/f/".data, position := some 1,
    simplified_tail := "/a".data, group := some 0 }

/-- A hand-built group whose position 1 sits in the third-preference state
`CHOSEN_TAIL_PLUS_FIRST_TAIL_START` (first tail `/a`, chosen tail `/b`), a
fixture for the tier-3 emission trajectory. -/
def plusEmitFixtureGroup : AugGroup :=
  { newGroup [] with
      all_tails := [{ (default : Tail) with simple_tail := "/a".data, value := some "u".data, value_qq := some "'u'".data },
                    { (default : Tail) with simple_tail := "/b".data, value := some "w".data, value_qq := some "'w'".data }],
      chosen_tail := fun _ => some 1,
      tails_at_position := fun _ => [0],
      chosen_tail_state := fun _ => .CHOSEN_TAIL_PLUS_FIRST_TAIL_START,
      max_position := 1 }

/-- Characters that `regexp_value()` passes through unescaped and that reach
its truncation check. -/
def plainChar (c : Char) : Bool :=
  !(c = squote || c = '\n' || c = '\t' || c = '\\' || c = ']' || c = '[' || regexpSpecial c)

/-- The two invariants of the grouping stage used for claim C3: all (tail,
value) pairs in the arena are distinct, and at every position the
`tail_value_found_map` column sums to the stub count. -/
def TailsOk (g : AugGroup) : Prop :=
  g.all_tails.Pairwise (fun t1 t2 => ¬(t1.simple_tail = t2.simple_tail ∧ t1.value = t2.value)) ∧
  ∀ p, ((g.all_tails.map (fun t => t.tail_value_found_map p)).sum = (g.tails_at_position p).length)

/-- The configuration for `--regexp=1`. -/
def cfgRegexp1 : Config := { noseq := false, pretty := false, use_regexp := 1 }

theorem setFun_self (f : Nat → α) (i : Nat) (a : α) : setFun f i a i = a := by
  simp [setFun]

theorem setFun_other (f : Nat → α) (i q : Nat) (a : α) (h : q ≠ i) : setFun f i a q = f q := by
  simp [setFun, h]

theorem valueCmpPlain_true_iff : ∀ a b : Str, ((valueCmpPlain a b).1 = true) ↔ a = b := by
  intro a
  induction a with
  | nil => intro b; cases b <;> simp [valueCmpPlain]
  | cons c r ih =>
    intro b
    cases b with
    | nil => simp [valueCmpPlain]
    | cons c2 r2 =>
      simp only [valueCmpPlain]
      by_cases h : c = c2
      · subst h; simp [ih]
      · simp [h]

theorem value_cmp_false_iff (a b : Option Str) : ((value_cmp false a b).1 = true) ↔ a = b := by
  cases a <;> cases b <;> simp [value_cmp, valueCmpPlain_true_iff]

theorem bumpTail_simple_tail (rx : Bool) (st : Str) (v : Option Str) (pos : Nat) (t : Tail) :
    (bumpTail rx st v pos t).simple_tail = t.simple_tail := by
  unfold bumpTail; split_ifs <;> rfl

theorem bumpTail_value (rx : Bool) (st : Str) (v : Option Str) (pos : Nat) (t : Tail) :
    (bumpTail rx st v pos t).value = t.value := by
  unfold bumpTail; split_ifs <;> rfl

theorem bumpTail_tvf (rx : Bool) (st : Str) (v : Option Str) (pos : Nat) (t : Tail) (p : Nat) :
    (bumpTail rx st v pos t).tail_value_found_map p =
      t.tail_value_found_map p +
        (if p = pos ∧ t.simple_tail = st ∧ (value_cmp rx t.value v).1 = true then 1 else 0) := by
  unfold bumpTail
  split_ifs with h1 h2 <;> simp_all [setFun]

theorem sum_map_tvf_bump (rx : Bool) (st : Str) (v : Option Str) (pos : Nat)
    (l : List Tail) (p : Nat) :
    ((l.map (bumpTail rx st v pos)).map (fun t => t.tail_value_found_map p)).sum =
      (l.map (fun t => t.tail_value_found_map p)).sum +
        (if p = pos then
          l.countP (fun t => t.simple_tail = st && (value_cmp rx t.value v).1) else 0) := by
  induction l with
  | nil => simp
  | cons t l ih =>
    simp only [List.map_cons, List.sum_cons, List.countP_cons, ih, bumpTail_tvf]
    by_cases hp : p = pos <;>
      by_cases h1 : t.simple_tail = st <;>
      by_cases h2 : (value_cmp rx t.value v).1 = true <;>
      simp [hp, h1, h2] <;> omega

theorem countP_le_one_of_pairwise (l : List α) (p : α → Bool)
    (h : l.Pairwise (fun a b => ¬(p a = true ∧ p b = true))) : l.countP p ≤ 1 := by
  induction l with
  | nil => simp
  | cons a l ih =>
    rw [List.pairwise_cons] at h
    by_cases ha : p a = true
    · have hz : l.countP p = 0 := by
        rw [List.countP_eq_zero]
        intro b hb
        have hb2 := h.1 b hb
        simp [ha] at hb2
        simp [hb2]
      simp [List.countP_cons, ha, hz]
    · simp only [List.countP_cons, ha]
      simpa using ih h.2

theorem lastIdxWhere_eq_none_iff (p : α → Bool) (l : List α) :
    lastIdxWhere p l = none ↔ ∀ x ∈ l, ¬ p x = true := by
  simp [lastIdxWhere, List.findIdx?_eq_none_iff]

theorem lastIdxWhere_isSome_iff (p : α → Bool) (l : List α) :
    (lastIdxWhere p l).isSome = true ↔ ∃ x ∈ l, p x = true := by
  simp [lastIdxWhere, ← Option.ne_none_iff_isSome, List.findIdx?_eq_none_iff]

theorem focTail_pred_iff (st : Str) (v : Option Str) (t : Tail) :
    ((t.simple_tail = st && (value_cmp false t.value v).1 : Bool) = true) ↔
      (t.simple_tail = st ∧ t.value = v) := by
  simp [value_cmp_false_iff]

theorem pairwise_bump (rx : Bool) (st : Str) (v : Option Str) (pos : Nat) (l : List Tail)
    (h : l.Pairwise (fun t1 t2 => ¬(t1.simple_tail = t2.simple_tail ∧ t1.value = t2.value))) :
    (l.map (bumpTail rx st v pos)).Pairwise
      (fun t1 t2 => ¬(t1.simple_tail = t2.simple_tail ∧ t1.value = t2.value)) := by
  rw [List.pairwise_map]
  exact h.imp (fun {a b} hab => by
    simpa [bumpTail_simple_tail, bumpTail_value] using hab)

theorem addTail_ok (g : AugGroup) (st : Str) (v vqq : Option Str) (pos : Nat) (h : TailsOk g)
    (g2 : AugGroup)
    (ha : append_tail_stub (find_or_create_tail false g st v vqq pos).1
            (find_or_create_tail false g st v vqq pos).2 pos = some g2) :
    TailsOk g2 := by
  obtain ⟨hpw, hsum⟩ := h
  have hpw2 : g.all_tails.Pairwise (fun t1 t2 =>
      ¬((t1.simple_tail = st && (value_cmp false t1.value v).1) = true ∧
        (t2.simple_tail = st && (value_cmp false t2.value v).1) = true)) := by
    refine hpw.imp (fun {a b} hab => ?_)
    rw [focTail_pred_iff, focTail_pred_iff]
    rintro ⟨⟨ha1, ha2⟩, hb1, hb2⟩
    exact hab ⟨ha1.trans hb1.symm, ha2.trans hb2.symm⟩
  unfold append_tail_stub at ha
  split at ha
  case isFalse => exact absurd ha (by simp)
  case isTrue =>
  rw [Option.some.injEq] at ha
  subst ha
  simp only [find_or_create_tail]
  rcases hfv : lastIdxWhere
      (fun t => t.simple_tail = st && (value_cmp false t.value v).1) g.all_tails with _ | i <;>
    simp only [hfv]
  · -- no (tail, value) match: a new tail is appended
    have hnone : ∀ x ∈ g.all_tails,
        ¬(x.simple_tail = st && (value_cmp false x.value v).1) = true :=
      (lastIdxWhere_eq_none_iff _ _).mp hfv
    have hcount : g.all_tails.countP
        (fun t => t.simple_tail = st && (value_cmp false t.value v).1) = 0 := by
      rw [List.countP_eq_zero]
      exact hnone
    constructor
    · simp only [find_or_create_tail, hfv]
      refine List.pairwise_append.mpr ⟨pairwise_bump _ _ _ _ _ hpw, List.pairwise_singleton _ _, ?_⟩
      intro a ha b hb
      simp only [List.mem_map] at ha
      obtain ⟨a0, ha0, rfl⟩ := ha
      simp only [List.mem_singleton] at hb
      subst hb
      simp only [bumpTail_simple_tail, bumpTail_value]
      rintro ⟨h1, h2⟩
      exact absurd ((focTail_pred_iff st v a0).mpr ⟨h1, h2⟩) (hnone a0 ha0)
    · intro p
      simp only [find_or_create_tail, hfv, setFun, List.map_append, List.sum_append,
        sum_map_tvf_bump, hcount]
      by_cases hp : p = pos <;> simp [hp, setFun, hsum p, hsum pos]
  · -- an existing tail matched (tail, value): its counters were bumped
    have hcount : g.all_tails.countP
        (fun t => t.simple_tail = st && (value_cmp false t.value v).1) = 1 := by
      have hex : ∃ x ∈ g.all_tails,
          (x.simple_tail = st && (value_cmp false x.value v).1) = true := by
        have hs : (lastIdxWhere
            (fun t => t.simple_tail = st && (value_cmp false t.value v).1)
            g.all_tails).isSome := by
          rw [hfv]; rfl
        exact (lastIdxWhere_isSome_iff _ _).mp hs
      have hle := countP_le_one_of_pairwise _ _ hpw2
      have hpos := List.countP_pos_iff.mpr hex
      omega
    constructor
    · simp only [find_or_create_tail, hfv]
      exact pairwise_bump _ _ _ _ _ hpw
    · intro p
      simp only [find_or_create_tail, hfv, setFun, sum_map_tvf_bump, hcount]
      by_cases hp : p = pos <;> simp [hp, setFun, hsum p, hsum pos]

theorem newGroup_ok (head : Str) : TailsOk (newGroup head) := by
  constructor
  · simp [newGroup]
  · intro p; simp [newGroup]

theorem find_or_create_group_lt (groups : List AugGroup) (head : Str) :
    (find_or_create_group groups head).2 < (find_or_create_group groups head).1.length := by
  unfold find_or_create_group
  cases hf : groups.findIdx? (fun g => g.head = head) with
  | none => simp
  | some i =>
    simp only []
    exact (List.findIdx?_eq_some_iff_findIdx_eq.mp hf).1

theorem find_or_create_group_ok (groups : List AugGroup) (head : Str)
    (h : ∀ g ∈ groups, TailsOk g) :
    ∀ g ∈ (find_or_create_group groups head).1, TailsOk g := by
  intro g hg
  unfold find_or_create_group at hg
  cases hf : groups.findIdx? (fun g => g.head = head) with
  | none =>
    rw [hf] at hg
    simp only [] at hg
    rcases List.mem_append.mp hg with h1 | h1
    · exact h g h1
    · rw [List.mem_singleton] at h1
      subst h1
      exact newGroup_ok head
  | some i =>
    rw [hf] at hg
    exact h g hg

theorem grow_ok (g : AugGroup) (new_max : Nat) (h : TailsOk g) :
    TailsOk (grow_position_arrays g new_max) := by
  unfold grow_position_arrays
  split
  · exact ⟨h.1, h.2⟩
  · exact h

theorem add_segment_to_group_ok (groups : List AugGroup) (head st : Str) (pos : Nat)
    (v vqq : Option Str) (h : ∀ g ∈ groups, TailsOk g) (r : List AugGroup × Nat)
    (ha : add_segment_to_group false groups head st pos v vqq = some r) :
    ∀ g ∈ r.1, TailsOk g := by
  simp only [add_segment_to_group] at ha
  split at ha
  · exact absurd ha (by simp)
  · rename_i g2 hap
    rw [Option.some.injEq] at ha
    subst ha
    intro g hg
    rcases List.mem_or_eq_of_mem_set hg with hg2 | hgeq
    · exact find_or_create_group_ok groups head h g hg2
    · have hlt := find_or_create_group_lt groups head
      have hmem : (find_or_create_group groups head).1.getD
          (find_or_create_group groups head).2 default ∈ (find_or_create_group groups head).1 := by
        rw [List.getD_eq_getElem _ _ hlt]
        exact List.getElem_mem _
      have h0 : TailsOk ((find_or_create_group groups head).1.getD
          (find_or_create_group groups head).2 default) :=
        find_or_create_group_ok groups head h _ hmem
      have h1 : TailsOk (if ((find_or_create_group groups head).1.getD
            (find_or_create_group groups head).2 default).max_position < pos then
          grow_position_arrays
            { (find_or_create_group groups head).1.getD
                (find_or_create_group groups head).2 default with max_position := pos } pos
        else (find_or_create_group groups head).1.getD
              (find_or_create_group groups head).2 default) := by
        split
        · exact grow_ok _ _ ⟨h0.1, h0.2⟩
        · exact h0
      have hTg2 : TailsOk g2 := addTail_ok _ st v vqq pos h1 g2 hap
      exact hgeq ▸ hTg2

theorem ingestSegStep_ok (value vqq : Option Str) (s : path_segment)
    (acc : List AugGroup × List path_segment) (h : ∀ g ∈ acc.1, TailsOk g)
    (r : List AugGroup × List path_segment)
    (ha : ingestSegStep false value vqq acc s = some r) :
    ∀ g ∈ r.1, TailsOk g := by
  unfold ingestSegStep at ha
  split at ha
  · split at ha
    · exact absurd ha (by simp)
    · rename_i r2 hadd
      rw [Option.some.injEq] at ha
      subst ha
      exact add_segment_to_group_ok _ _ _ _ _ _ h r2 hadd
  · rw [Option.some.injEq] at ha
    subst ha
    simpa using h

theorem foldl_segs_ok (value vqq : Option Str) (segs : List path_segment) :
    ∀ (acc : List AugGroup × List path_segment), (∀ g ∈ acc.1, TailsOk g) →
      ∀ r, segs.foldlM (ingestSegStep false value vqq) acc = some r →
      ∀ g ∈ r.1, TailsOk g := by
  induction segs with
  | nil =>
    intro acc h r hr
    rw [List.foldlM_nil] at hr
    injection hr with hr
    subst hr
    exact h
  | cons s segs ih =>
    intro acc h r hr
    rw [List.foldlM_cons] at hr
    rcases hstep : ingestSegStep false value vqq acc s with _ | a
    · rw [hstep] at hr
      simp at hr
    · rw [hstep] at hr
      exact ih a (ingestSegStep_ok _ _ _ _ h a hstep) r hr

theorem ingestEntry_ok (cfg : Config) (hcfg : cfg.use_regexp = 0) (groups : List AugGroup)
    (path : Str) (value : Option Str) (h : ∀ g ∈ groups, TailsOk g)
    (r : List AugGroup × Entry) (ha : ingestEntry cfg groups path value = some r) :
    ∀ g ∈ r.1, TailsOk g := by
  simp only [ingestEntry] at ha
  have hb : (decide ¬cfg.use_regexp = 0) = false := by simp [hcfg]
  rw [hb] at ha
  split at ha
  · exact absurd ha (by simp)
  · rename_i r2 hf
    rw [Option.some.injEq] at ha
    subst ha
    exact foldl_segs_ok _ _ _ _ (by simpa using h) r2 hf

theorem ingest_ok (cfg : Config) (hcfg : cfg.use_regexp = 0) (raw : List (Str × Option Str))
    (r : List AugGroup × List Entry) (ha : ingest cfg raw = some r) :
    ∀ g ∈ r.1, TailsOk g := by
  unfold ingest at ha
  have key : ∀ (l : List (Str × Option Str)) (acc : List AugGroup × List Entry),
      (∀ g ∈ acc.1, TailsOk g) → ∀ r2, l.foldlM (ingestStep cfg) acc = some r2 →
      ∀ g ∈ r2.1, TailsOk g := by
    intro l
    induction l with
    | nil =>
      intro acc h r2 hr
      rw [List.foldlM_nil] at hr
      injection hr with hr
      subst hr
      exact h
    | cons pv l ih =>
      intro acc h r2 hr
      rw [List.foldlM_cons] at hr
      rcases hstep : ingestStep cfg acc pv with _ | a
      · rw [hstep] at hr
        simp at hr
      · rw [hstep] at hr
        refine ih a ?_ r2 hr
        unfold ingestStep at hstep
        split at hstep
        · exact absurd hstep (by simp)
        · rename_i re he
          rw [Option.some.injEq] at hstep
          subst hstep
          exact ingestEntry_ok cfg hcfg _ _ _ h re he
  exact key raw ([], []) (by simp) r ha

/-- Claim C3 (amended): after all entries have been ingested **with
regular-expression relaxation disabled** (`use_regexp == 0`, the default)
and without an ingest-time crash, for every group `g` and every position
`p` the sum over all tails of `tail_value_found_map[p]` equals the number
of stubs in `tails_at_position[p]` (in particular for every
`p ∈ 1..max_position`).  Under `--regexp` the claim fails (see the
counterexample): `value_cmp`\'s `]`-wildcard lets one inserted segment
increment the counters of two distinct tails while appending only one
stub. -/
theorem claim3_sum_invariant (cfg : Config) (hcfg : cfg.use_regexp = 0)
    (raw : List (Str × Option Str)) (r : List AugGroup × List Entry)
    (hing : ingest cfg raw = some r) (g : AugGroup) (hg : g ∈ r.1) (p : Nat) :
    (g.all_tails.map (fun t => t.tail_value_found_map p)).sum =
      (g.tails_at_position p).length :=
  (ingest_ok cfg hcfg raw r hing g hg).2 p

/-- Witness for `claim3_sum_invariant` at a concrete ingested input. -/
theorem claim3_sum_invariant_witness :
    cfg0.use_regexp = 0 ∧
    (((((ingest cfg0 [("/f/l[1]/x".data, some "v".data)]).getD ([], [])).1.getD 0
          default).all_tails.map
        (fun t => t.tail_value_found_map 1)).sum =
      ((((ingest cfg0 [("/f/l[1]/x".data, some "v".data)]).getD ([], [])).1.getD 0
          default).tails_at_position 1).length) :=
  ⟨rfl, claim3_sum_invariant cfg0 rfl [("/f/l[1]/x".data, some "v".data)]
    ((ingest cfg0 [("/f/l[1]/x".data, some "v".data)]).getD ([], [])) rfl _
    (by rw [List.getD_eq_getElem _ _ (by decide)]; exact List.getElem_mem _) 1⟩

/-- Counterexample to claim C3 as stated: with `--regexp=1`, ingesting the
three pairs `/f/l[1]/x = "ab"`, `/f/l[2]/x = "ac"`, `/f/l[3]/x = "a]"` makes
the third segment `value_cmp`-match both existing tails (`]` is a wildcard),
so at position 3 the `tail_value_found_map` column sums to 2 while
`tails_at_position[3]` holds a single stub. -/
theorem claim3_counterexample :
    (((((ingest cfgRegexp1 [("/f/l[1]/x".data, some "ab".data),
        ("/f/l[2]/x".data, some "ac".data), ("/f/l[3]/x".data, some "a]".data)]).getD
          ([], [])).1.getD 0
          default).all_tails.map (fun t => t.tail_value_found_map 3)).sum = 2 ∧
    ((((ingest cfgRegexp1 [("/f/l[1]/x".data, some "ab".data),
        ("/f/l[2]/x".data, some "ac".data), ("/f/l[3]/x".data, some "a]".data)]).getD
          ([], [])).1.getD 0
          default).tails_at_position 3).length = 1) ∧ (2 : Nat) ≠ 1 := by
  decide

/-- Claim C4 (amended): for the single input pair `/files/etc/motd/1 =
"hello"` the emitter outputs exactly
`set /files/etc/motd/seq::*[.='hello'] 'hello'` — the single-entry group is
disambiguated by tier 1 and the predicate `[.='hello']` (the empty
simplified tail rendered as `.` by `simple_tail_expr`) **is** printed after
`seq::*`; no state of `output_segment` suppresses the predicate. -/
theorem claim4_motd_line :
    run_pipeline cfg0 [("/files/etc/motd/1".data, some "hello".data)] =
      some ["set /files/etc/motd/seq::*[.='hello'] 'hello'".data] := by
  decide

/-- Counterexample to claim C4 as stated: the emitted line carries the
predicate `[.='hello']` after `seq::*`, so it is not the claimed
`set /files/etc/motd/seq::* 'hello'` (and no line of the output is). -/
theorem claim4_counterexample :
    run_pipeline cfg0 [("/files/etc/motd/1".data, some "hello".data)] ≠
      some ["set /files/etc/motd/seq::* 'hello'".data] := by
  decide

theorem strNextPos_decomp : ∀ (s : Str) (p : Option Nat),
    s = (strNextPosAux p s).1 ++ (strNextPosAux p s).2.1 ++ (strNextPosAux p s).2.2.2 := by
  intro s
  induction s with
  | nil => intro p; rfl
  | cons c cs ih =>
    intro p
    simp only [strNextPosAux]
    split_ifs with h1 h2 h3
    · simp only [Bool.and_eq_true, decide_eq_true_eq] at h1
      obtain ⟨⟨hc, hdig⟩, hhead⟩ := h1
      dsimp only
      simp only [List.nil_append, List.cons_append, List.cons.injEq, true_and]
      have h4 : cs.dropWhile isDig ≠ [] := by
        intro he
        rw [he] at hhead
        exact absurd hhead (by decide)
      have hsplit : cs.dropWhile isDig = ']' :: (cs.dropWhile isDig).tail := by
        conv_lhs => rw [← List.head_cons_tail _ h4]
        have h5 : (cs.dropWhile isDig).headD ' ' = (cs.dropWhile isDig).head h4 := by
          rw [List.headD_eq_head?_getD, List.head?_eq_head h4]
          rfl
        rw [h5] at hhead
        rw [hhead]
      conv_lhs => rw [← List.takeWhile_append_dropWhile (p := isDig) (l := cs)]
      rw [hsplit]
      simp
    · dsimp only
      simp only [List.cons_append, List.singleton_append, List.cons.injEq, true_and]
      conv_lhs => rw [← List.takeWhile_append_dropWhile (p := isDig) (l := cs)]
      simp
    · dsimp only
      simp only [List.cons_append, List.cons.injEq, true_and]
      exact ih _
    · dsimp only
      simp only [List.cons_append, List.cons.injEq, true_and]
      exact ih _

theorem strNextPos_cons_consumes (p : Option Nat) (c : Char) (cs : Str) :
    1 ≤ (strNextPosAux p (c :: cs)).1.length + (strNextPosAux p (c :: cs)).2.1.length := by
  simp only [strNextPosAux]
  split_ifs <;> dsimp only <;> (try simp) <;> omega

theorem strNextPos_none : ∀ (s : Str) (p : Option Nat),
    (strNextPosAux p s).2.2.1 = none → strNextPosAux p s = (s, [], none, []) := by
  intro s
  induction s with
  | nil =>
    intro p h
    simp only [strNextPosAux] at h ⊢
    rw [h]
  | cons c cs ih =>
    intro p h
    simp only [strNextPosAux] at h ⊢
    split_ifs at h ⊢ with h1 h2 h3
    all_goals try simp at h
    all_goals rw [ih _ h]

theorem strNextPos_no_marker : ∀ (s : Str) (p : Option Nat),
    (strNextPosAux p s).2.1 = [] →
    ∃ q, strNextPosAux p s = (s, [], q, []) := by
  intro s
  induction s with
  | nil => intro p _; exact ⟨p, rfl⟩
  | cons c cs ih =>
    intro p h
    simp only [strNextPosAux] at h ⊢
    split_ifs at h ⊢ with h1 h2 h3
    · simp at h
    · simp only [Bool.and_eq_true, decide_eq_true_eq] at h2
      obtain ⟨⟨hc, hdig⟩, hterm⟩ := h2
      dsimp only at h
      cases hcs : cs with
      | nil => rw [hcs] at hdig; exact absurd hdig (by decide)
      | cons c1 cs1 =>
        rw [hcs] at hdig h
        simp only [List.headD_cons] at hdig
        rw [List.takeWhile_cons, if_pos hdig] at h
        exact absurd h (by simp)
    · obtain ⟨q, hq⟩ := ih _ h
      exact ⟨q, by rw [hq]⟩
    · obtain ⟨q, hq⟩ := ih _ h
      exact ⟨q, by rw [hq]⟩

theorem splitPathAux_skip (noseq : Bool) : ∀ (pre : Str) (done rest : Str),
    splitPathAux noseq pre.length done (pre ++ rest) = splitPathAux noseq 0 done rest := by
  intro pre
  induction pre with
  | nil => intro done rest; rfl
  | cons d ds ih =>
    intro done rest
    simp only [List.cons_append, List.length_cons]
    cases hdr : ds ++ rest with
    | nil =>
      rcases List.append_eq_nil.mp hdr with ⟨rfl, rfl⟩
      rfl
    | cons x xs =>
      rw [← hdr, splitPathAux]
      exact ih done rest

theorem splitPathAux_skip_all (noseq : Bool) : ∀ (l done : Str),
    splitPathAux noseq l.length done l = [] := by
  intro l
  induction l with
  | nil => intro done; rfl
  | cons x xs ih =>
    intro done
    rw [List.length_cons, splitPathAux]
    exact ih done

/-- Claim C5 (amended): after the last positional marker — that is, when
`str_next_pos` finds no further marker in the remaining suffix — a final
Segment with an empty simplified tail is produced **iff a non-empty suffix
follows that marker**; the path ending exactly at the marker produces no
trailing segment.  The trailing segment\'s position, however, is
`str_next_pos`\'s `*pos` output on the suffix: `ULONG_MAX` (absent) only
when the suffix contains no failed numeric candidate, because `strtoul`
writes `*pos` before the terminator test and a failed candidate (e.g.
`[2q`) leaks its number — then the trailing segment carries that leaked
number as its position.  So a path with exactly one marker yields two
segments when text follows the marker (the second with absent position
only in the no-leak case) and exactly one segment otherwise. -/
theorem claim5_split_shape (noseq : Bool) (done : Str) (c : Char) (rest : Str)
    (seg mark : Str) (p : Nat) (rest' : Str)
    (h1 : str_next_pos (c :: rest) = (seg, mark, some p, rest'))
    (h2 : (str_next_pos rest').2.1 = []) :
    splitPathAux noseq 0 done (c :: rest) =
      { head := done ++ seg, segment := seg, position := some p,
        simplified_tail := str_simplified_tail noseq rest', group := none } ::
      (if rest' = [] then [] else
        [{ head := done ++ seg ++ mark ++ rest', segment := rest',
           position := (str_next_pos rest').2.2.1,
           simplified_tail := [], group := none }]) := by
  have hdec := strNextPos_decomp (c :: rest) none
  have hcons := strNextPos_cons_consumes none c rest
  rw [show strNextPosAux none (c :: rest) = str_next_pos (c :: rest) from rfl, h1] at hdec hcons
  simp only [] at hdec hcons
  cases hsm : seg ++ mark with
  | nil =>
    rcases List.append_eq_nil.mp hsm with ⟨rfl, rfl⟩
    simp at hcons
  | cons d ds =>
    rw [hsm] at hdec
    simp only [List.cons_append, List.cons.injEq] at hdec
    obtain ⟨rfl, hrest⟩ := hdec
    have hlen : seg.length + mark.length - 1 = ds.length := by
      have hl := congrArg List.length hsm
      simp only [List.length_append, List.length_cons] at hl
      omega
    rw [splitPathAux]
    simp only [show strNextPosAux none (c :: rest) = str_next_pos (c :: rest) from rfl, h1]
    congr 1
    rw [hlen, hrest, splitPathAux_skip]
    cases hr : rest' with
    | nil => rfl
    | cons c' cs' =>
      obtain ⟨q, hfull⟩ := strNextPos_no_marker rest' none h2
      rw [hr] at hfull
      rw [if_neg (List.cons_ne_nil c' cs')]
      rw [splitPathAux]
      have hfull2 : str_next_pos (c' :: cs') = (c' :: cs', [], q, []) := hfull
      simp only [hfull2]
      simp only [List.cons.injEq]
      refine ⟨rfl, ?_⟩
      have hl2 : (c' :: cs' : Str).length + List.length ([] : Str) - 1 = cs'.length := by
        simp
      rw [hl2]
      exact splitPathAux_skip_all noseq cs' _

/-- Witness for `claim5_split_shape`: `/a[1]/b` splits into the positional
segment plus the trailing absent-position segment, and `/a[1]/ta[2q` —
whose suffix holds the failed candidate `[2q` — splits into the positional
segment plus a trailing segment that carries the **leaked** position 2. -/
theorem claim5_split_shape_witness :
    split_path false "/a[1]/b".data =
      [{ head := "/a".data, segment := "/a".data, position := some 1,
         simplified_tail := "/b".data, group := none },
       { head := "/a[1]/b".data, segment := "/b".data, position := none,
         simplified_tail := [], group := none }] ∧
    split_path false "/a[1]/ta[2q".data =
      [{ head := "/a".data, segment := "/a".data, position := some 1,
         simplified_tail := "/ta[2q".data, group := none },
       { head := "/a[1]/ta[2q".data, segment := "/ta[2q".data, position := some 2,
         simplified_tail := [], group := none }] := by
  constructor
  · have h := claim5_split_shape false [] '/' "a[1]/b".data "/a".data "[1]".data 1 "/b".data
      (by decide) (by decide)
    rw [show split_path false "/a[1]/b".data
        = splitPathAux false 0 [] ('/' :: "a[1]/b".data) from rfl, h]
    decide
  · have h := claim5_split_shape false [] '/' "a[1]/ta[2q".data "/a".data "[1]".data 1
      "/ta[2q".data (by decide) (by decide)
    rw [show split_path false "/a[1]/ta[2q".data
        = splitPathAux false 0 [] ('/' :: "a[1]/ta[2q".data) from rfl, h]
    decide

/-- Counterexample to claim C5 as stated: the path `/files/etc/motd/1`
contains exactly one positional marker but `split_path` produces exactly
**one** segment — the claimed trailing Segment with absent position does not
exist because the path ends at the marker; and for `/a[1]/ta[2q` the
trailing segment exists but its position is **not** absent (the failed
candidate `[2q` leaked 2 into `*pos`), so no segment of that path has an
absent position either. -/
theorem claim5_counterexample :
    ((split_path false "/files/etc/motd/1".data).length = 1 ∧
    (∀ s ∈ split_path false "/files/etc/motd/1".data, s.position ≠ none)) ∧
    ((split_path false "/a[1]/ta[2q".data).length = 2 ∧
    (∀ s ∈ split_path false "/a[1]/ta[2q".data, s.position ≠ none)) := by
  decide

theorem find_or_create_subgroup_chosen_tail (g : AugGroup) (i : Nat) :
    (find_or_create_subgroup g i).1.chosen_tail = g.chosen_tail := by
  unfold find_or_create_subgroup
  split <;> rfl

theorem choose_tail_chosen_tail_eq (g : AugGroup) (pos : Nat) :
    (choose_tail g pos).1.chosen_tail = g.chosen_tail := by
  unfold choose_tail
  split
  · rfl
  · dsimp only
    split_ifs <;>
      first
      | rfl
      | (split <;>
          first
          | rfl
          | (split <;> simp [find_or_create_subgroup_chosen_tail]))

theorem foldl_chooseTailStep_zero (l : List Nat) :
    ∀ g : AugGroup, (∀ q ∈ l, 1 ≤ q) → g.chosen_tail 0 = none →
      (l.foldl chooseTailStep g).chosen_tail 0 = none := by
  induction l with
  | nil => exact fun g _ h => h
  | cons q l ih =>
    intro g hq h
    rw [List.foldl_cons]
    refine ih _ (fun x hx => hq x (by simp [hx])) ?_
    unfold chooseTailStep
    simp only []
    rw [setFun_other _ _ _ _ (by have := hq q (by simp); omega)]
    rw [choose_tail_chosen_tail_eq]
    exact h

theorem focTail_size (rx : Bool) (g : AugGroup) (st : Str) (v vqq : Option Str) (pos : Nat) :
    (find_or_create_tail rx g st v vqq pos).1.position_array_size = g.position_array_size := by
  simp only [find_or_create_tail]
  split <;> rfl

/-- Claim C9 (amended): a label immediately followed by `[0]` **is**
recognised by segmentation as a positional marker with position 0, and a
non-decimal bracket expression such as `[x]` is not a marker; but position
zero is **not** handled like any other position.  `add_segment_to_group`
grows the per-position arrays only when `position > max_position`, which is
false for position 0, so a position-0 segment whose group has never grown
its arrays (`position_array_size == 0`) makes `append_tail_stub`
dereference the NULL `tails_at_position` array and the program crashes
**during ingest** — grouping, disambiguation and emission are never
reached.  Even when the arrays were already grown by an earlier position
`>= 1`, `choose_all_tails` only processes positions `1..max_position`, so
`chosen_tail[0]` stays NULL and emitting the position-0 entry dereferences
it.  An entry at position 1 instead ingests and emits a normal line. -/
theorem claim9_position_zero :
    (∀ (p0 : Option Nat) (rest : Str),
        strNextPosAux p0 ('[' :: '0' :: ']' :: rest) = ([], ['[', '0', ']'], some 0, rest)) ∧
    str_next_pos "/files/h/l[x]".data = ("/files/h/l[x]".data, [], none, []) ∧
    (∀ (rx : Bool) (groups : List AugGroup) (head st : Str) (v vqq : Option Str),
        ((find_or_create_group groups head).1.getD (find_or_create_group groups head).2
            default).position_array_size = 0 →
        add_segment_to_group rx groups head st 0 v vqq = none) ∧
    (∀ (cfg : Config) (g g' : AugGroup), cfg.use_regexp = 0 → cfg.pretty = false →
        g.chosen_tail 0 = none → chooseAllTailsGroup cfg g = some g' →
        g'.chosen_tail 0 = none) ∧
    (ingest cfg0 [("/f/l[0]/x".data, some "v".data)]).isNone = true ∧
    run_pipeline cfg0 [("/f/l[0]/x".data, some "v".data)] = none ∧
    run_pipeline cfg0 [("/f/l[1]/x".data, some "v".data)] =
      some ["set /f/l[x='v']/x 'v'".data] := by
  refine ⟨?_, by decide, ?_, ?_, by decide, by decide, by decide⟩
  · intro p0 rest
    simp [strNextPosAux, List.takeWhile_cons, List.dropWhile_cons, isDig, digitsToNat]
  · intro rx groups head st v vqq hsize
    simp only [add_segment_to_group]
    rw [if_neg (by omega)]
    have hap : append_tail_stub
        (find_or_create_tail rx ((find_or_create_group groups head).1.getD
          (find_or_create_group groups head).2 default) st v vqq 0).1
        (find_or_create_tail rx ((find_or_create_group groups head).1.getD
          (find_or_create_group groups head).2 default) st v vqq 0).2 0 = none := by
      unfold append_tail_stub
      rw [if_neg]
      rw [focTail_size, hsize]
      omega
    rw [hap]
  · intro cfg g g' h1 h2 h3 h4
    unfold chooseAllTailsGroup at h4
    simp only [h1, h2] at h4
    simp at h4
    subst h4
    refine foldl_chooseTailStep_zero _ _ (fun q hq => ?_) h3
    obtain ⟨i, _, rfl⟩ := List.mem_range'.mp hq
    omega

/-- Witness for `claim9_position_zero`: the ingest-crash conjunct applied to
an empty arena (the created group has unallocated arrays), and the
no-chosen-tail conjunct applied to a fresh group. -/
theorem claim9_position_zero_witness :
    add_segment_to_group false [] "/f/".data "/x".data 0 none none = none ∧
    ((List.range' 1 (newGroup []).max_position).foldl chooseTailStep (newGroup [])).chosen_tail 0
      = none :=
  ⟨claim9_position_zero.2.2.1 false [] "/f/".data "/x".data none none (by decide),
   claim9_position_zero.2.2.2.1 cfg0 (newGroup []) _ rfl rfl rfl rfl⟩

/-- Counterexample to claim C9 as stated: the entry `/f/l[0]/x = 'v'` is
*not* carried through grouping, disambiguation and emission — `ingest`
already crashes (NULL `tails_at_position` dereference in
`append_tail_stub`, because position 0 never triggers the array growth), so
the whole pipeline is `none`, while the position-1 twin emits a normal
line; and when the arrays do exist (an earlier position-1 entry in the same
group), the position-0 entry still crashes, at emission. -/
theorem claim9_counterexample :
    (ingest cfg0 [("/f/l[0]/x".data, some "v".data)]).isNone = true ∧
    run_pipeline cfg0 [("/f/l[0]/x".data, some "v".data)] = none ∧
    run_pipeline cfg0 [("/f/l[1]/x".data, some "v".data)] =
      some ["set /f/l[x='v']/x 'v'".data] ∧
    (ingest cfg0 [("/f/l[1]/x".data, some "v".data),
      ("/f/l[0]/y".data, some "w".data)]).isSome = true ∧
    run_pipeline cfg0 [("/f/l[1]/x".data, some "v".data),
      ("/f/l[0]/y".data, some "w".data)] = none := by
  decide

/-- Claim C7 (amended): when `tails_at_position[p]` is empty, `choose_tail`
records state `NO_CHILD_NODES` and returns NULL (after a stderr
diagnostic); at emission a NULL `chosen_tail` produces the
`chosen_tail==NULL ???` diagnostic on standard error and emission
continues, but the `[*]` fallback is appended **only when the segment is of
the `[n]` form** (segment text not ending in `/`); for the `/n` form
nothing is appended after `seq::*`.  (With a NULL chosen tail in any state
other than `NO_CHILD_NODES` the C instead dereferences the NULL pointer —
see the counterexample.) -/
theorem claim7_internal_error (g : AugGroup) (pos : Nat)
    (hempty : g.tails_at_position pos = []) (cfg : Config) (groups : List AugGroup)
    (gi : Nat) (g2 : AugGroup) (seg : path_segment) (pos2 : Nat) (vqq : Option Str)
    (lastC : Char) (hgd : groups.getD gi default = g2) (hgrp : seg.group = some gi)
    (hpos : seg.position = some pos2) (hlast : seg.segment.getLast? = some lastC)
    (hchosen : g2.chosen_tail pos2 = none)
    (hstate : g2.chosen_tail_state pos2 = .NO_CHILD_NODES) :
    choose_tail g pos =
      ({ g with chosen_tail_state := setFun g.chosen_tail_state pos .NO_CHILD_NODES }, none) ∧
    output_segment cfg groups seg vqq =
      some (segText cfg seg.segment lastC ++ (if lastC = '/' then [] else "[*]".data),
            ["chosen_tail==NULL ???".data], groups) := by
  constructor
  · unfold choose_tail
    rw [hempty]
  · unfold output_segment
    rw [hlast, hgrp]
    simp only [hgd, hpos, Option.getD_some, hchosen, hstate]

/-- Witness for `claim7_internal_error` on a concrete violating state: a
group with `max_position = 1` and no tails, and a sequential-form segment. -/
theorem claim7_internal_error_witness :
    choose_tail { newGroup "/f/l".data with max_position := 1 } 1 =
      ({ { newGroup "/f/l".data with max_position := 1 } with
          chosen_tail_state :=
            setFun ({ newGroup "/f/l".data with max_position := 1 }).chosen_tail_state 1
              .NO_CHILD_NODES }, none) ∧
    output_segment cfg0
      [(choose_tail { newGroup "/f/l".data with max_position := 1 } 1).1]
      { head := "/f/".data, segment := "/f/".data, position := some 1,
        simplified_tail := [], group := some 0 } (some "'v'".data) =
      some (segText cfg0 "/f/".data '/' ++ (if '/' = '/' then [] else "[*]".data),
            ["chosen_tail==NULL ???".data],
            [(choose_tail { newGroup "/f/l".data with max_position := 1 } 1).1]) :=
  claim7_internal_error { newGroup "/f/l".data with max_position := 1 } 1 rfl cfg0
    [(choose_tail { newGroup "/f/l".data with max_position := 1 } 1).1] 0 _
    { head := "/f/".data, segment := "/f/".data, position := some 1,
      simplified_tail := [], group := some 0 } 1 (some "'v'".data) '/'
    rfl rfl rfl rfl rfl rfl

/-- Counterexample to claim C7 as stated: for a `/n`-form segment (segment
text ending in `/`) in the `NO_CHILD_NODES` violation state the emitted
text is exactly `/f/seq::*` — no `[*]` fallback is appended even though the
diagnostic fires; and with a NULL chosen tail in the initial `NOT_DONE`
state emission does not continue at all (the C dereferences NULL — modelled
by `none`). -/
theorem claim7_counterexample :
    (output_segment cfg0 [(choose_tail { newGroup "/f/l".data with max_position := 1 } 1).1]
        { head := "/f/".data, segment := "/f/".data, position := some 1,
          simplified_tail := [], group := some 0 } (some "'v'".data)).map
      (fun r => (r.1, r.2.1)) =
      some ("/f/seq::*".data, ["chosen_tail==NULL ???".data]) ∧
    (output_segment cfg0 [{ newGroup "/f/l".data with max_position := 1 }]
      { head := "/f/l".data, segment := "/f/l".data, position := some 1,
        simplified_tail := [], group := some 0 } (some "'v'".data)).isNone = true := by
  decide

theorem zipNexts_cons (e : Entry) (rest : List Entry) :
    zipNexts (e :: rest) = (e, rest.head?) :: zipNexts rest := by
  cases rest <;> rfl

theorem unsuppressedEntries_cons (e : Entry) (rest : List Entry) :
    unsuppressedEntries (e :: rest) =
      (if suppressEntry e rest.head? then [] else [e]) ++ unsuppressedEntries rest := by
  unfold unsuppressedEntries
  rw [zipNexts_cons, List.filter_cons]
  by_cases h : suppressEntry e rest.head? <;> simp [h]

theorem outputAll_length (cfg : Config) :
    ∀ (l : List Entry) (gs : List AugGroup) (r : List Str × List Str × List AugGroup),
      outputAll cfg gs l = some r → r.1.length = l.length := by
  intro l
  induction l with
  | nil =>
    intro gs r h
    simp only [outputAll, Option.some.injEq] at h
    subst h
    rfl
  | cons e rest ih =>
    intro gs r h
    simp only [outputAll] at h
    rcases hop : output_path cfg gs e with _ | r1
    · rw [hop] at h; simp at h
    · rw [hop] at h
      dsimp only at h
      rcases hoa : outputAll cfg r1.2.2 rest with _ | r2
      · rw [hoa] at h; simp at h
      · rw [hoa] at h
        simp only [Option.some.injEq] at h
        subst h
        simp [ih r1.2.2 r2 hoa]

/-- Claim C8 (amended): with `--pretty` off, the emission is exactly one
`output_path` line per entry **not** suppressed, in input order, where an
entry is suppressed iff its *normalized* value is null (NULL **or the empty
string**) and its path is a strict `/`-prefix of the immediately following
entry's path; suppressed entries also leave the emission state untouched, so
the remaining lines are unchanged.  (As stated the claim fails for
empty-string values, which are normalized to null — see the
counterexample.) -/
theorem claim8_suppression (cfg : Config) (hP : cfg.pretty = false) (es : List Entry)
    (groups : List AugGroup) :
    output cfg groups es = outputAll cfg groups (unsuppressedEntries es) ∧
    (∀ (l : List Entry) (gs : List AugGroup) (r : List Str × List Str × List AugGroup),
      outputAll cfg gs l = some r → r.1.length = l.length) := by
  refine ⟨?_, outputAll_length cfg⟩
  induction es generalizing groups with
  | nil => rfl
  | cons e rest ih =>
    rw [unsuppressedEntries_cons]
    cases rest with
    | nil =>
      have hsup : suppressEntry e (([] : List Entry).head?) = false := by
        simp [suppressEntry]
      rw [hsup]
      simp only [Bool.false_eq_true, if_false, List.singleton_append]
      simp only [output, outputAll, Bool.and_false, Bool.false_eq_true, if_false]
      rcases hop : output_path cfg groups e with _ | r1
      · rfl
      · simp only [ite_self]
        simp [unsuppressedEntries, zipNexts, outputAll]
    | cons e2 r2 =>
      by_cases hs : (normalizeValue e.value = none && str_ischild e.path e2.path) = true
      · have hsup : suppressEntry e ((e2 :: r2).head?) = true := hs
        rw [hsup]
        simp only [if_true, List.nil_append]
        simp only [output]
        rw [if_pos hs]
        exact ih groups
      · have hsup : suppressEntry e ((e2 :: r2).head?) = false := Bool.eq_false_iff.mpr hs
        rw [hsup]
        simp only [Bool.false_eq_true, if_false, List.singleton_append]
        conv_lhs => rw [output]; dsimp only
        rw [if_neg hs]
        conv_rhs => rw [outputAll]
        rcases hop : output_path cfg groups e with _ | r1
        · rfl
        · simp only [hP, Bool.false_eq_true, if_false]
          rw [ih r1.2.2]
          rcases hoa : outputAll cfg r1.2.2 (unsuppressedEntries (e2 :: r2)) with _ | r3
          · rfl
          · simp

/-- Witness for `claim8_suppression`: its pretty-off hypothesis holds for the
default configuration, at a concrete one-entry list. -/
theorem claim8_suppression_witness :
    cfg0.pretty = false ∧
    (output cfg0 [] [{ path := ('/' :: 'f' :: []), value := none, value_qq := none, segments := [] }] =
       outputAll cfg0 []
         (unsuppressedEntries [{ path := ('/' :: 'f' :: []), value := none, value_qq := none, segments := [] }]) ∧
     ∀ (l : List Entry) (gs : List AugGroup) (r : List Str × List Str × List AugGroup),
       outputAll cfg0 gs l = some r → r.1.length = l.length) :=
  ⟨rfl, claim8_suppression cfg0 rfl _ []⟩

/-- Counterexample to claim C8 as stated: an entry whose value is the empty
string — which is not null — is also suppressed when the next path extends
its path, because `output()` normalizes an empty-string value to NULL before
the suppression test; the two-entry run below emits one `set` line where the
claim requires two. -/
theorem claim8_counterexample :
    (some ([] : Str) : Option Str) ≠ none ∧
    run_pipeline cfg0 [("/f/a".data, some []), ("/f/a/b".data, some "x".data)] =
      some ["set /f/a/b 'x'".data] := by
  constructor
  · decide
  · decide

theorem tailAt_setTailValueNone (g : AugGroup) (k : Nat) (hk : k < g.all_tails.length) (i : Nat) :
    tailAt (setTailValueNone g k) i =
      if k = i then { tailAt g k with value := none } else tailAt g i := by
  unfold setTailValueNone tailAt
  by_cases h : k = i
  · subst h; simp [List.getD_eq_getElem?_getD, List.getElem?_set, hk, tailAt]
  · simp [List.getD_eq_getElem?_getD, List.getElem?_set, h]

theorem significantTail_setNone (g : AugGroup) (k : Nat) (hk : k < g.all_tails.length)
    (hv : (tailAt g k).value = some []) (i : Nat) :
    significantTail (tailAt (setTailValueNone g k) i) = significantTail (tailAt g i) := by
  rw [tailAt_setTailValueNone g k hk i]
  split_ifs with h
  · subst h; simp [significantTail, hv]
  · rfl

theorem simple_tail_setNone (g : AugGroup) (k : Nat) (hk : k < g.all_tails.length) (i : Nat) :
    (tailAt (setTailValueNone g k) i).simple_tail = (tailAt g i).simple_tail := by
  rw [tailAt_setTailValueNone g k hk i]
  split_ifs with h
  · subst h; rfl
  · rfl

theorem findFirstTailSfx_congr (g g2 : AugGroup)
    (hsig : ∀ i, significantTail (tailAt g2 i) = significantTail (tailAt g i))
    (hst : ∀ i, (tailAt g2 i).simple_tail = (tailAt g i).simple_tail) :
    ∀ (rest : List Nat) (i : Nat), findFirstTailSfx g2 i rest = findFirstTailSfx g i rest := by
  intro rest
  induction rest with
  | nil => intro i; rfl
  | cons j rest2 ih =>
    intro i
    simp only [findFirstTailSfx, hsig, hst, ih]

/-- Claim C10: an empty-string value is treated like a NULL value at the
public interface.  In `output()` the value is normalized to NULL before the
suppression test, so an entry with value `""` behaves exactly as the same
entry with a NULL value; and in first-tail selection a tail whose value is
the empty string is not "significant" (it is skipped just like a NULL-valued
anchor tail), so `find_first_tail` is unchanged if the empty-string value is
replaced by NULL. -/
theorem claim10_empty_string (cfg : Config) (groups : List AugGroup)
    (p : Str) (vqq : Option Str) (segs : List path_segment) (rest : List Entry)
    (g : AugGroup) (k : Nat) (l : List Nat)
    (hk : k < g.all_tails.length) (hv : (tailAt g k).value = some []) :
    output cfg groups ({ path := p, value := some [], value_qq := vqq, segments := segs } :: rest) =
      output cfg groups ({ path := p, value := none, value_qq := vqq, segments := segs } :: rest) ∧
    significantTail (tailAt g k) = false ∧
    find_first_tail g l = find_first_tail (setTailValueNone g k) l := by
  refine ⟨rfl, by simp [significantTail, hv], ?_⟩
  cases l with
  | nil => rfl
  | cons i rest2 =>
    simp only [find_first_tail]
    rw [findFirstTailSfx_congr g (setTailValueNone g k)
      (significantTail_setNone g k hk hv) (simple_tail_setNone g k hk) rest2 i]

/-- Witness for `claim10_empty_string` on a concrete one-tail group whose
tail has the empty-string value. -/
theorem claim10_empty_string_witness :
    (output cfg0 [] ({ path := [], value := some [], value_qq := none, segments := [] } :: []) =
      output cfg0 [] ({ path := [], value := none, value_qq := none, segments := [] } :: []) ∧
    significantTail (tailAt emptyValueGroup 0) = false ∧
    find_first_tail emptyValueGroup [0] = find_first_tail (setTailValueNone emptyValueGroup 0) [0]) :=
  claim10_empty_string cfg0 [] [] none [] [] emptyValueGroup 0 [0] (by decide) rfl

theorem foldl_max_spec (p : Nat → Prop) [DecidablePred p] (f : Nat → Nat)
    (ff : Nat → Nat → Nat) (hf : ∀ m i, ff m i = if p i then max m (f i) else m) :
    ∀ (l : List Nat) (b : Nat),
      b ≤ l.foldl ff b ∧
      (∀ i ∈ l, p i → f i ≤ l.foldl ff b) ∧
      (l.foldl ff b = b ∨ ∃ i ∈ l, p i ∧ l.foldl ff b = f i) := by
  intro l
  induction l with
  | nil => intro b; exact ⟨Nat.le_refl b, by simp, Or.inl rfl⟩
  | cons c l ih =>
    intro b
    rw [List.foldl_cons, hf b c]
    by_cases hp : p c
    · rw [if_pos hp]
      obtain ⟨h1, h2, h3⟩ := ih (max b (f c))
      refine ⟨le_trans (Nat.le_max_left _ _) h1, ?_, ?_⟩
      · intro i hi hpi
        rcases List.mem_cons.mp hi with rfl | hi2
        · exact le_trans (Nat.le_max_right _ _) h1
        · exact h2 i hi2 hpi
      · rcases h3 with h3 | ⟨i, hi, hpi, he⟩
        · rcases Nat.le_total (f c) b with hle | hle
          · rw [h3, Nat.max_eq_left hle]; exact Or.inl rfl
          · rw [h3, Nat.max_eq_right hle]
            exact Or.inr ⟨c, List.mem_cons_self c l, hp, rfl⟩
        · exact Or.inr ⟨i, List.mem_cons_of_mem c hi, hpi, he⟩
    · rw [if_neg hp]
      obtain ⟨h1, h2, h3⟩ := ih b
      refine ⟨h1, ?_, ?_⟩
      · intro i hi hpi
        rcases List.mem_cons.mp hi with rfl | hi2
        · exact absurd hpi hp
        · exact h2 i hi2 hpi
      · rcases h3 with h3 | ⟨i, hi, hpi, he⟩
        · exact Or.inl h3
        · exact Or.inr ⟨i, List.mem_cons_of_mem c hi, hpi, he⟩

theorem regexpBody_short (M : Nat) : ∀ (w : Str) (k : Nat),
    w.all plainChar = true → w.length ≤ 3 → regexpBody squote M k w = w := by
  intro w
  induction w with
  | nil => intro k _ _; rfl
  | cons c rest ih =>
    intro k hall hlen
    rw [List.all_cons, Bool.and_eq_true] at hall
    obtain ⟨hc, hrest⟩ := hall
    simp only [plainChar, Bool.not_eq_true', Bool.or_eq_false_iff, decide_eq_false_iff_not] at hc
    obtain ⟨⟨⟨⟨⟨⟨h1, h2⟩, h3⟩, h4⟩, h5⟩, h6⟩, h7⟩ := hc
    have hnc : ¬(M ≤ k ∧ 3 ≤ rest.length) := by
      intro hx
      simp at hlen
      omega
    simp only [regexpBody, if_neg h1, if_neg h2, if_neg h3]
    rw [if_neg (by simp [h4, h5])]
    simp only [h6, h7, hnc, if_false, Bool.false_eq_true, ite_false]
    rw [ih (k+1) hrest (by simp at hlen; omega)]
    rfl

theorem regexpBody_plain (M : Nat) : ∀ (w : Str) (k : Nat),
    w.all plainChar = true → k ≤ M →
    regexpBody squote M k w =
      if M + 4 ≤ k + w.length then w.take (M + 1 - k) ++ ('.' :: '*' :: []) else w := by
  intro w
  induction w with
  | nil =>
    intro k _ hk
    rw [if_neg (by simp; omega)]
    rfl
  | cons c rest ih =>
    intro k hall hk
    rw [List.all_cons, Bool.and_eq_true] at hall
    obtain ⟨hc, hrest⟩ := hall
    simp only [plainChar, Bool.not_eq_true', Bool.or_eq_false_iff, decide_eq_false_iff_not] at hc
    obtain ⟨⟨⟨⟨⟨⟨h1, h2⟩, h3⟩, h4⟩, h5⟩, h6⟩, h7⟩ := hc
    simp only [regexpBody, if_neg h1, if_neg h2, if_neg h3]
    rw [if_neg (by simp [h4, h5])]
    simp only [h6, h7, if_false, Bool.false_eq_true, ite_false]
    by_cases htr : M ≤ k ∧ 3 ≤ rest.length
    · rw [if_pos htr]
      have hkM : k = M := Nat.le_antisymm hk htr.1
      subst hkM
      rw [if_pos (by simp; omega)]
      have h8 : k + 1 - k = 1 := by omega
      rw [h8, List.take_succ_cons, List.take_zero]
    · rw [if_neg htr]
      by_cases hkM : k < M
      · rw [ih (k+1) hrest (by omega)]
        by_cases hlong : M + 4 ≤ k + (c :: rest).length
        · rw [if_pos (by simp at hlong ⊢; omega), if_pos hlong]
          have h9 : M + 1 - k = (M + 1 - (k+1)) + 1 := by omega
          rw [h9, List.take_succ_cons]
          rfl
        · rw [if_neg (by simp at hlong ⊢; omega), if_neg hlong]
          rfl
      · have hkM2 : M = k := by omega
        have hshort : rest.length ≤ 2 := by
          rcases Nat.lt_or_ge rest.length 3 with h | h
          · omega
          · exact absurd ⟨hkM2.le, h⟩ htr
        rw [regexpBody_short M rest (k+1) hrest (by omega)]
        rw [if_neg (by simp; omega)]
        rfl

theorem quoteChar_plain (v : Str) (hv : v.all plainChar = true) : quoteChar v = squote := by
  unfold quoteChar
  rw [if_pos]
  rw [List.countP_eq_zero]
  intro c hc
  have hp := List.all_eq_true.mp hv c hc
  simp only [plainChar, Bool.not_eq_true', Bool.or_eq_false_iff, decide_eq_false_iff_not] at hp
  simp [hp.1.1.1.1.1.1]

theorem regexp_value_plain (v : Str) (M : Nat) (hv : v.all plainChar = true) :
    regexp_value v M =
      squote :: (if M + 4 ≤ v.length then v.take (M + 1) ++ ('.' :: '*' :: []) else v) ++ [squote] := by
  unfold regexp_value
  rw [quoteChar_plain v hv, regexpBody_plain M v 0 hv (Nat.zero_le M)]
  simp only [Nat.zero_add, Nat.sub_zero]

theorem tailAt_setTailValueRe (g : AugGroup) (i : Nat) (re : Option Str)
    (hk : i < g.all_tails.length) :
    tailAt (setTailValueRe g i re) i = { tailAt g i with value_re := re } := by
  unfold setTailValueRe tailAt
  simp [List.getD_eq_getElem?_getD, List.getElem?_set, hk, tailAt]

theorem regexpBody_flatMap_no_cut (quote : Char) (M : Nat) :
    ∀ (v : Str) (k : Nat),
      (∀ j, j < v.length →
        ¬(cutEligible quote (v.getD j ' ') = true ∧ M ≤ k + j ∧ j + 4 ≤ v.length)) →
      regexpBody quote M k v = v.flatMap (rvEsc quote) := by
  intro v
  induction v with
  | nil => intro k _; rfl
  | cons c rest ih =>
    intro k hno
    have htail : ∀ j, j < rest.length →
        ¬(cutEligible quote (rest.getD j ' ') = true ∧ M ≤ (k+1) + j ∧ j + 4 ≤ rest.length) := by
      intro j hj hc
      exact hno (j+1) (by simp; omega)
        ⟨by simpa [List.getD_cons_succ] using hc.1, by omega, by simp; omega⟩
    by_cases hq : c = quote
    · simp only [regexpBody, if_pos hq, List.flatMap_cons, rvEsc, ih (k+1) htail]
      rfl
    · by_cases hn : c = '\n'
      · simp only [regexpBody, if_neg hq, if_pos hn, List.flatMap_cons, rvEsc,
          ih (k+1) htail]
        rfl
      · by_cases ht : c = '\t'
        · simp only [regexpBody, if_neg hq, if_neg hn, if_pos ht, List.flatMap_cons, rvEsc,
            ih (k+1) htail]
          rfl
        · by_cases hb : (c = '\\' || c = ']') = true
          · simp only [regexpBody, if_neg hq, if_neg hn, if_neg ht, if_pos hb,
              List.flatMap_cons, rvEsc, ih (k+1) htail]
            rfl
          · have hel : cutEligible quote c = true := by
              simp only [cutEligible, Bool.or_eq_true, decide_eq_true_eq] at hb ⊢
              simp only [Bool.not_eq_true', Bool.or_eq_false_iff, decide_eq_false_iff_not]
              push_neg at hb
              exact ⟨⟨⟨⟨hq, hn⟩, ht⟩, hb.1⟩, hb.2⟩
            have hnc : ¬(M ≤ k ∧ 3 ≤ rest.length) := by
              intro hcc
              exact hno 0 (by simp)
                ⟨by simpa [List.getD_cons_zero] using hel, by omega, by simp; omega⟩
            simp only [regexpBody, if_neg hq, if_neg hn, if_neg ht, if_neg hb]
            rw [if_neg hnc, ih (k+1) htail]
            simp only [List.flatMap_cons, rvEsc]
            rw [if_neg hq, if_neg hn, if_neg ht, if_neg hb]

theorem regexpBody_flatMap_cut (quote : Char) (M : Nat) :
    ∀ (v : Str) (k i : Nat),
      i < v.length →
      (cutEligible quote (v.getD i ' ') = true ∧ M ≤ k + i ∧ i + 4 ≤ v.length) →
      (∀ j, j < i → ¬(cutEligible quote (v.getD j ' ') = true ∧ M ≤ k + j ∧ j + 4 ≤ v.length)) →
      regexpBody quote M k v = (v.take (i+1)).flatMap (rvEsc quote) ++ ('.' :: '*' :: []) := by
  intro v
  induction v with
  | nil =>
    intro k i hi
    exact absurd hi (by simp)
  | cons c rest ih =>
    intro k i hi hcond hmin
    match i, hcond with
    | 0, ⟨hel, hMk, hlen⟩ =>
      rw [List.getD_cons_zero] at hel
      have hel2 := hel
      simp only [cutEligible, Bool.not_eq_true', Bool.or_eq_false_iff,
        decide_eq_false_iff_not] at hel2
      obtain ⟨⟨⟨⟨hq, hn⟩, ht⟩, hbs⟩, hbr⟩ := hel2
      simp only [regexpBody, if_neg hq, if_neg hn, if_neg ht]
      rw [if_neg (by simp [hbs, hbr])]
      rw [if_pos (⟨by omega, by simp at hlen ⊢; omega⟩ : M ≤ k ∧ 3 ≤ rest.length)]
      simp only [List.take_succ_cons, List.take_zero, List.flatMap_cons, List.flatMap_nil,
        List.append_nil, rvEsc, if_neg hq, if_neg hn, if_neg ht]
      rw [if_neg (show ¬((c = '\\' || c = ']') = true) from by simp [hbs, hbr])]
    | i' + 1, ⟨hel, hMk, hlen⟩ =>
      have hi' : i' < rest.length := by simp at hi; omega
      have hcond' : cutEligible quote (rest.getD i' ' ') = true ∧
          M ≤ (k+1) + i' ∧ i' + 4 ≤ rest.length := by
        refine ⟨by simpa [List.getD_cons_succ] using hel, by omega, by simp at hlen; omega⟩
      have hmin' : ∀ j, j < i' →
          ¬(cutEligible quote (rest.getD j ' ') = true ∧ M ≤ (k+1) + j ∧ j + 4 ≤ rest.length) := by
        intro j hj hc
        exact hmin (j+1) (by omega)
          ⟨by simpa [List.getD_cons_succ] using hc.1, by omega, by simp; omega⟩
      have hstep : regexpBody quote M (k+1) rest =
          (rest.take (i'+1)).flatMap (rvEsc quote) ++ ('.' :: '*' :: []) :=
        ih (k+1) i' hi' hcond' hmin'
      by_cases hq : c = quote
      · simp only [regexpBody, if_pos hq, hstep, List.take_succ_cons, List.flatMap_cons,
          rvEsc, if_pos hq]
        rfl
      · by_cases hn : c = '\n'
        · simp only [regexpBody, if_neg hq, if_pos hn, hstep, List.take_succ_cons,
            List.flatMap_cons, rvEsc, if_neg hq, if_pos hn]
          rfl
        · by_cases ht : c = '\t'
          · simp only [regexpBody, if_neg hq, if_neg hn, if_pos ht, hstep,
              List.take_succ_cons, List.flatMap_cons, rvEsc, if_neg hq, if_neg hn, if_pos ht]
            rfl
          · by_cases hb : (c = '\\' || c = ']') = true
            · simp only [regexpBody, if_neg hq, if_neg hn, if_neg ht, if_pos hb, hstep,
                List.take_succ_cons, List.flatMap_cons, rvEsc, if_neg hq, if_neg hn,
                if_neg ht, if_pos hb]
              rfl
            · have hel0 : cutEligible quote c = true := by
                simp only [cutEligible, Bool.not_eq_true', Bool.or_eq_false_iff,
                  decide_eq_false_iff_not]
                simp only [Bool.or_eq_true, decide_eq_true_eq] at hb
                push_neg at hb
                exact ⟨⟨⟨⟨hq, hn⟩, ht⟩, hb.1⟩, hb.2⟩
              have hnc : ¬(M ≤ k ∧ 3 ≤ rest.length) := by
                intro hcc
                exact hmin 0 (by omega)
                  ⟨by simpa [List.getD_cons_zero] using hel0, by omega, by simp; omega⟩
              simp only [regexpBody, if_neg hq, if_neg hn, if_neg ht, if_neg hb]
              rw [if_neg hnc, hstep]
              simp only [List.take_succ_cons, List.flatMap_cons, rvEsc, if_neg hq,
                if_neg hn, if_neg ht, if_neg hb]
              rw [List.append_assoc]

theorem quoteChar_of_no_squote (v : Str) (hv : v.countP (fun c => c = squote) = 0) :
    quoteChar v = squote := by
  unfold quoteChar
  rw [if_pos hv]

theorem regexp_value_no_cut (v : Str) (M : Nat)
    (hq : v.countP (fun c => c = squote) = 0)
    (hno : ∀ j, j < v.length →
      ¬(cutEligible squote (v.getD j ' ') = true ∧ M ≤ j ∧ j + 4 ≤ v.length)) :
    regexp_value v M = squote :: v.flatMap (rvEsc squote) ++ [squote] := by
  unfold regexp_value
  rw [quoteChar_of_no_squote v hq,
    regexpBody_flatMap_no_cut squote M v 0
      (fun j hj hc => hno j hj ⟨hc.1, by omega, hc.2.2⟩)]

theorem regexp_value_cut (v : Str) (M i : Nat)
    (hq : v.countP (fun c => c = squote) = 0)
    (hi : i < v.length)
    (hcond : cutEligible squote (v.getD i ' ') = true ∧ M ≤ i ∧ i + 4 ≤ v.length)
    (hmin : ∀ j, j < i →
      ¬(cutEligible squote (v.getD j ' ') = true ∧ M ≤ j ∧ j + 4 ≤ v.length)) :
    regexp_value v M =
      squote :: ((v.take (i+1)).flatMap (rvEsc squote) ++ ('.' :: '*' :: [])) ++ [squote] := by
  unfold regexp_value
  rw [quoteChar_of_no_squote v hq,
    regexpBody_flatMap_cut squote M v 0 i hi ⟨hcond.1, by omega, hcond.2.2⟩
      (fun j hj hc => hmin j hj ⟨hc.1, by omega, hc.2.2⟩)]

theorem chooseReWidthAt_spec (L : Nat) (g : AugGroup) (pos ci : Nat) (v : Str)
    (hct : g.chosen_tail pos = some ci)
    (hstate : g.chosen_tail_state pos ≠ .CHOSEN_TAIL_PLUS_FIRST_TAIL_START)
    (hv : (tailAt g ci).value = some v) (hci : ci < g.all_tails.length) :
    ∃ g2, chooseReWidthAt L g pos = some g2 ∧
      L ≤ g2.re_width_ct pos ∧
      (∀ i < g.all_tails.length, i ≠ ci →
        (tailAt g i).simple_tail = (tailAt g ci).simple_tail →
        (value_cmp (L != 0) (tailAt g i).value (tailAt g ci).value).2 ≤ g2.re_width_ct pos) ∧
      (g2.re_width_ct pos = L ∨ ∃ i, i < g.all_tails.length ∧ i ≠ ci ∧
        (tailAt g i).simple_tail = (tailAt g ci).simple_tail ∧
        g2.re_width_ct pos = (value_cmp (L != 0) (tailAt g i).value (tailAt g ci).value).2) ∧
      (tailAt g2 ci).value_re = some (regexp_value v (g2.re_width_ct pos)) := by
  simp only [chooseReWidthAt, hct]
  rw [if_neg hstate]
  dsimp only
  rw [if_neg hstate]
  refine ⟨_, rfl, ?_⟩
  obtain ⟨hb, hub, hach⟩ := foldl_max_spec
    (fun i => i ≠ ci ∧ (tailAt g i).simple_tail = (tailAt g ci).simple_tail)
    (fun i => (value_cmp (L != 0) (tailAt g i).value (tailAt g ci).value).2)
    (fun m i => if i ≠ ci ∧ (tailAt g i).simple_tail = (tailAt g ci).simple_tail then
        max m (value_cmp (L != 0) (tailAt g i).value (tailAt g ci).value).2 else m)
    (fun m i => rfl) (List.range g.all_tails.length) 0
  refine ⟨?_, ?_, ?_, ?_⟩
  · simp only [setTailValueRe, setFun_self]
    exact Nat.le_max_right _ _
  · intro i hi hne hst
    simp only [setTailValueRe, setFun_self]
    exact le_trans (hub i (List.mem_range.mpr hi) ⟨hne, hst⟩) (Nat.le_max_left _ _)
  · simp only [setTailValueRe, setFun_self]
    rcases hach with h0 | ⟨i, hi, hp, he⟩
    · refine Or.inl ?_
      rw [h0]
      simp
    · rcases Nat.le_total L ((value_cmp (L != 0) (tailAt g i).value (tailAt g ci).value).2)
        with hLW | hWL
      · refine Or.inr ⟨i, List.mem_range.mp hi, hp.1, hp.2, ?_⟩
        rw [he]
        exact Nat.max_eq_left hLW
      · refine Or.inl ?_
        rw [he]
        exact Nat.max_eq_right hWL
  · simp [setTailValueRe, tailAt, setFun_self, hv, List.getD_eq_getElem?_getD,
      List.getElem?_set, hci]
    refine ⟨v, ?_, rfl⟩
    have hv2 := hv
    simp [tailAt, List.getD_eq_getElem?_getD, List.getElem?_eq_getElem hci] at hv2
    exact hv2

theorem chooseReWidthAt_spec_t3 (L : Nat) (g : AugGroup) (pos ci fi : Nat) (v fv : Str)
    (hct : g.chosen_tail pos = some ci)
    (hstate : g.chosen_tail_state pos = .CHOSEN_TAIL_PLUS_FIRST_TAIL_START)
    (hft : g.first_tail pos = some fi)
    (hne : ci ≠ fi)
    (hv : (tailAt g ci).value = some v) (hfv : (tailAt g fi).value = some fv)
    (hci : ci < g.all_tails.length) (hfi : fi < g.all_tails.length) :
    ∃ g2, chooseReWidthAt L g pos = some g2 ∧
      L ≤ g2.re_width_ct pos ∧
      (∀ i < g.all_tails.length, i ≠ ci →
        (tailAt g i).simple_tail = (tailAt g ci).simple_tail →
        (value_cmp (L != 0) (tailAt g i).value (tailAt g ci).value).2 ≤ g2.re_width_ct pos) ∧
      (g2.re_width_ct pos = L ∨ ∃ i, i < g.all_tails.length ∧ i ≠ ci ∧
        (tailAt g i).simple_tail = (tailAt g ci).simple_tail ∧
        g2.re_width_ct pos = (value_cmp (L != 0) (tailAt g i).value (tailAt g ci).value).2) ∧
      L ≤ g2.re_width_ft pos ∧
      (∀ i < g.all_tails.length, i ≠ fi →
        (tailAt g i).simple_tail = (tailAt g fi).simple_tail →
        (value_cmp (L != 0) (tailAt g i).value (tailAt g fi).value).2 ≤ g2.re_width_ft pos) ∧
      (g2.re_width_ft pos = L ∨ ∃ i, i < g.all_tails.length ∧ i ≠ fi ∧
        (tailAt g i).simple_tail = (tailAt g fi).simple_tail ∧
        g2.re_width_ft pos = (value_cmp (L != 0) (tailAt g i).value (tailAt g fi).value).2) ∧
      (tailAt g2 ci).value_re = some (regexp_value v (g2.re_width_ct pos)) ∧
      (tailAt g2 fi).value_re = some (regexp_value fv (g2.re_width_ft pos)) := by
  simp only [chooseReWidthAt, hct, hft, hstate]
  rw [if_pos hne]
  simp only [if_true]
  rw [if_neg hne]
  refine ⟨_, rfl, ?_⟩
  obtain ⟨hbc, hubc, hachc⟩ := foldl_max_spec
    (fun i => i ≠ ci ∧ (tailAt g i).simple_tail = (tailAt g ci).simple_tail)
    (fun i => (value_cmp (L != 0) (tailAt g i).value (tailAt g ci).value).2)
    (fun m i => if i ≠ ci ∧ (tailAt g i).simple_tail = (tailAt g ci).simple_tail then
        max m (value_cmp (L != 0) (tailAt g i).value (tailAt g ci).value).2 else m)
    (fun m i => rfl) (List.range g.all_tails.length) 0
  obtain ⟨hbf, hubf, hachf⟩ := foldl_max_spec
    (fun i => i ≠ fi ∧ (tailAt g i).simple_tail = (tailAt g fi).simple_tail)
    (fun i => (value_cmp (L != 0) (tailAt g i).value (tailAt g fi).value).2)
    (fun m i => if i ≠ fi ∧ (tailAt g i).simple_tail = (tailAt g fi).simple_tail then
        max m (value_cmp (L != 0) (tailAt g i).value (tailAt g fi).value).2 else m)
    (fun m i => rfl) (List.range g.all_tails.length) 0
  refine ⟨?_, ?_, ?_, ?_, ?_, ?_, ?_, ?_⟩
  · simp only [setTailValueRe, setFun_self]
    exact Nat.le_max_right _ _
  · intro i hi hne2 hst
    simp only [setTailValueRe, setFun_self]
    exact le_trans (hubc i (List.mem_range.mpr hi) ⟨hne2, hst⟩) (Nat.le_max_left _ _)
  · simp only [setTailValueRe, setFun_self]
    rcases hachc with h0 | ⟨i, hi, hp, he⟩
    · refine Or.inl ?_
      rw [h0]
      simp
    · rcases Nat.le_total L ((value_cmp (L != 0) (tailAt g i).value (tailAt g ci).value).2)
        with hLW | hWL
      · refine Or.inr ⟨i, List.mem_range.mp hi, hp.1, hp.2, ?_⟩
        rw [he]
        exact Nat.max_eq_left hLW
      · refine Or.inl ?_
        rw [he]
        exact Nat.max_eq_right hWL
  · simp only [setTailValueRe, setFun_self]
    exact Nat.le_max_right _ _
  · intro i hi hne2 hst
    simp only [setTailValueRe, setFun_self]
    exact le_trans (hubf i (List.mem_range.mpr hi) ⟨hne2, hst⟩) (Nat.le_max_left _ _)
  · simp only [setTailValueRe, setFun_self]
    rcases hachf with h0 | ⟨i, hi, hp, he⟩
    · refine Or.inl ?_
      rw [h0]
      simp
    · rcases Nat.le_total L ((value_cmp (L != 0) (tailAt g i).value (tailAt g fi).value).2)
        with hLW | hWL
      · refine Or.inr ⟨i, List.mem_range.mp hi, hp.1, hp.2, ?_⟩
        rw [he]
        exact Nat.max_eq_left hLW
      · refine Or.inl ?_
        rw [he]
        exact Nat.max_eq_right hWL
  · simp [setTailValueRe, tailAt, setFun_self, hv, List.getD_eq_getElem?_getD,
      List.getElem?_set, hci, hfi, hne, Ne.symm hne]
    refine ⟨v, ?_, rfl⟩
    have hv2 := hv
    simp [tailAt, List.getD_eq_getElem?_getD, List.getElem?_eq_getElem hci] at hv2
    exact hv2
  · simp [setTailValueRe, tailAt, setFun_self, hfv, List.getD_eq_getElem?_getD,
      List.getElem?_set, hci, hfi, hne, Ne.symm hne]
    refine ⟨fv, ?_, rfl⟩
    have hfv2 := hfv
    simp [tailAt, List.getD_eq_getElem?_getD, List.getElem?_eq_getElem hfi] at hfv2
    exact hfv2

/-- Claim C6 (amended): when `--regexp` relaxation is enabled with minimum
length `L`, `choose_re_width` records for each disambiguated position the
width `W = max(re_width, L)` where `re_width` is the maximal `value_cmp`
overlap of the chosen tail's value with every other tail at the same
simplified tail (`W` is an upper bound on those overlaps, at least `L`, and
attained unless it equals `L`), caching `value_re = regexp_value(value, W)`;
for a third-preference position it does the same for the first tail with
its own width `re_width_ft`.  `regexp_value` escapes every character by the
claimed map (`* ? . ( ) ^ $ |` doubled-backslash, `\` and `]` rewritten to
`.`, `[` single-backslash, plus the quote, `\n` and `\t`); the truncation
check only runs at characters other than quote/`\n`/`\t`/`\`/`]`: the cut
happens at the first such character whose offset is at least `W` with at
least three more characters after it, keeping the escaped characters up to
and including it — `W + 1` source characters only when no cut-exempt
character sits below the cut — followed by `.*`; with no such offset the
whole value is kept and no `.*` is appended. -/
theorem claim6_regexp_width :
    (∀ (L : Nat) (g : AugGroup) (pos ci : Nat) (v : Str),
      g.chosen_tail pos = some ci →
      g.chosen_tail_state pos ≠ .CHOSEN_TAIL_PLUS_FIRST_TAIL_START →
      (tailAt g ci).value = some v → ci < g.all_tails.length →
      ∃ g2, chooseReWidthAt L g pos = some g2 ∧
        L ≤ g2.re_width_ct pos ∧
        (∀ i < g.all_tails.length, i ≠ ci →
          (tailAt g i).simple_tail = (tailAt g ci).simple_tail →
          (value_cmp (L != 0) (tailAt g i).value (tailAt g ci).value).2 ≤ g2.re_width_ct pos) ∧
        (g2.re_width_ct pos = L ∨ ∃ i, i < g.all_tails.length ∧ i ≠ ci ∧
          (tailAt g i).simple_tail = (tailAt g ci).simple_tail ∧
          g2.re_width_ct pos = (value_cmp (L != 0) (tailAt g i).value (tailAt g ci).value).2) ∧
        (tailAt g2 ci).value_re = some (regexp_value v (g2.re_width_ct pos))) ∧
    (∀ (L : Nat) (g : AugGroup) (pos ci fi : Nat) (v fv : Str),
      g.chosen_tail pos = some ci →
      g.chosen_tail_state pos = .CHOSEN_TAIL_PLUS_FIRST_TAIL_START →
      g.first_tail pos = some fi → ci ≠ fi →
      (tailAt g ci).value = some v → (tailAt g fi).value = some fv →
      ci < g.all_tails.length → fi < g.all_tails.length →
      ∃ g2, chooseReWidthAt L g pos = some g2 ∧
        L ≤ g2.re_width_ct pos ∧
        (∀ i < g.all_tails.length, i ≠ ci →
          (tailAt g i).simple_tail = (tailAt g ci).simple_tail →
          (value_cmp (L != 0) (tailAt g i).value (tailAt g ci).value).2 ≤ g2.re_width_ct pos) ∧
        (g2.re_width_ct pos = L ∨ ∃ i, i < g.all_tails.length ∧ i ≠ ci ∧
          (tailAt g i).simple_tail = (tailAt g ci).simple_tail ∧
          g2.re_width_ct pos = (value_cmp (L != 0) (tailAt g i).value (tailAt g ci).value).2) ∧
        L ≤ g2.re_width_ft pos ∧
        (∀ i < g.all_tails.length, i ≠ fi →
          (tailAt g i).simple_tail = (tailAt g fi).simple_tail →
          (value_cmp (L != 0) (tailAt g i).value (tailAt g fi).value).2 ≤ g2.re_width_ft pos) ∧
        (g2.re_width_ft pos = L ∨ ∃ i, i < g.all_tails.length ∧ i ≠ fi ∧
          (tailAt g i).simple_tail = (tailAt g fi).simple_tail ∧
          g2.re_width_ft pos = (value_cmp (L != 0) (tailAt g i).value (tailAt g fi).value).2) ∧
        (tailAt g2 ci).value_re = some (regexp_value v (g2.re_width_ct pos)) ∧
        (tailAt g2 fi).value_re = some (regexp_value fv (g2.re_width_ft pos))) ∧
    (∀ (v : Str) (M : Nat),
      v.countP (fun c => c = squote) = 0 →
      (∀ j, j < v.length →
        ¬(cutEligible squote (v.getD j ' ') = true ∧ M ≤ j ∧ j + 4 ≤ v.length)) →
      regexp_value v M = squote :: v.flatMap (rvEsc squote) ++ [squote]) ∧
    (∀ (v : Str) (M i : Nat),
      v.countP (fun c => c = squote) = 0 →
      i < v.length →
      (cutEligible squote (v.getD i ' ') = true ∧ M ≤ i ∧ i + 4 ≤ v.length) →
      (∀ j, j < i →
        ¬(cutEligible squote (v.getD j ' ') = true ∧ M ≤ j ∧ j + 4 ≤ v.length)) →
      regexp_value v M =
        squote :: ((v.take (i+1)).flatMap (rvEsc squote) ++ ('.' :: '*' :: [])) ++ [squote]) :=
  ⟨fun L g pos ci v hct hstate hv hci =>
      chooseReWidthAt_spec L g pos ci v hct hstate hv hci,
   fun L g pos ci fi v fv hct hstate hft hne hv hfv hci hfi =>
      chooseReWidthAt_spec_t3 L g pos ci fi v fv hct hstate hft hne hv hfv hci hfi,
   fun v M hq hno => regexp_value_no_cut v M hq hno,
   fun v M i hq hi hcond hmin => regexp_value_cut v M i hq hi hcond hmin⟩

theorem claim6_regexp_width_witness :
    (∃ g2, chooseReWidthAt 1 reWidthFixtureGroup 1 = some g2 ∧
      1 ≤ g2.re_width_ct 1 ∧
      (∀ i < reWidthFixtureGroup.all_tails.length, i ≠ 0 →
        (tailAt reWidthFixtureGroup i).simple_tail =
          (tailAt reWidthFixtureGroup 0).simple_tail →
        (value_cmp (1 != 0) (tailAt reWidthFixtureGroup i).value
          (tailAt reWidthFixtureGroup 0).value).2 ≤ g2.re_width_ct 1) ∧
      (g2.re_width_ct 1 = 1 ∨ ∃ i, i < reWidthFixtureGroup.all_tails.length ∧ i ≠ 0 ∧
        (tailAt reWidthFixtureGroup i).simple_tail =
          (tailAt reWidthFixtureGroup 0).simple_tail ∧
        g2.re_width_ct 1 = (value_cmp (1 != 0) (tailAt reWidthFixtureGroup i).value
          (tailAt reWidthFixtureGroup 0).value).2) ∧
      (tailAt g2 0).value_re = some (regexp_value ('a' :: 'b' :: []) (g2.re_width_ct 1))) ∧
    (∃ g2, chooseReWidthAt 1 t3FixtureGroup 1 = some g2 ∧
      1 ≤ g2.re_width_ct 1 ∧
      (∀ i < t3FixtureGroup.all_tails.length, i ≠ 1 →
        (tailAt t3FixtureGroup i).simple_tail = (tailAt t3FixtureGroup 1).simple_tail →
        (value_cmp (1 != 0) (tailAt t3FixtureGroup i).value
          (tailAt t3FixtureGroup 1).value).2 ≤ g2.re_width_ct 1) ∧
      (g2.re_width_ct 1 = 1 ∨ ∃ i, i < t3FixtureGroup.all_tails.length ∧ i ≠ 1 ∧
        (tailAt t3FixtureGroup i).simple_tail = (tailAt t3FixtureGroup 1).simple_tail ∧
        g2.re_width_ct 1 = (value_cmp (1 != 0) (tailAt t3FixtureGroup i).value
          (tailAt t3FixtureGroup 1).value).2) ∧
      1 ≤ g2.re_width_ft 1 ∧
      (∀ i < t3FixtureGroup.all_tails.length, i ≠ 0 →
        (tailAt t3FixtureGroup i).simple_tail = (tailAt t3FixtureGroup 0).simple_tail →
        (value_cmp (1 != 0) (tailAt t3FixtureGroup i).value
          (tailAt t3FixtureGroup 0).value).2 ≤ g2.re_width_ft 1) ∧
      (g2.re_width_ft 1 = 1 ∨ ∃ i, i < t3FixtureGroup.all_tails.length ∧ i ≠ 0 ∧
        (tailAt t3FixtureGroup i).simple_tail = (tailAt t3FixtureGroup 0).simple_tail ∧
        g2.re_width_ft 1 = (value_cmp (1 != 0) (tailAt t3FixtureGroup i).value
          (tailAt t3FixtureGroup 0).value).2) ∧
      (tailAt g2 1).value_re = some (regexp_value ('w' :: []) (g2.re_width_ct 1)) ∧
      (tailAt g2 0).value_re = some (regexp_value ('u' :: []) (g2.re_width_ft 1))) ∧
    regexp_value "ab".data 5 = squote :: "ab".data.flatMap (rvEsc squote) ++ [squote] ∧
    regexp_value "a]cdefgh".data 1 =
      squote :: (("a]cdefgh".data.take (2+1)).flatMap (rvEsc squote) ++ ('.' :: '*' :: []))
        ++ [squote] :=
  ⟨claim6_regexp_width.1 1 reWidthFixtureGroup 1 0 ('a' :: 'b' :: [])
      rfl (fun h => chosen_tail_state_t.noConfusion h) rfl (by decide),
   claim6_regexp_width.2.1 1 t3FixtureGroup 1 1 0 ('w' :: []) ('u' :: [])
      rfl rfl rfl (by decide) rfl rfl (by decide) (by decide),
   claim6_regexp_width.2.2.1 "ab".data 5 (by decide) (by decide),
   claim6_regexp_width.2.2.2 "a]cdefgh".data 1 2 (by decide) (by decide) (by decide)
      (by decide)⟩

theorem claim6_counterexample :
    run_pipeline cfgRegexp1 [("/f/l[1]/x".data, some "abcdefgh".data)] =
      some ["set /f/l[x=~regexp('ab.*')]/x 'abcdefgh'".data] ∧
    regexp_value "abcdefgh".data 1 = "'ab.*'".data ∧
    regexp_value "abcdefgh".data 1 ≠ "'a.*'".data ∧
    regexp_value "a]cdefgh".data 1 = "'a.c.*'".data ∧
    regexp_value "a]cdefgh".data 1 ≠ "'a.*'".data :=
  ⟨by decide, by decide, by decide, by decide, by decide⟩

theorem tier2Scan_cond_iff (g : AugGroup) (pre : List Nat) (i : Nat) :
    ((tailAt g i).tail_value_found = 1
        && (List.range' 1 g.max_position).all (fun q => !((tailAt g i).tail_found_map q = 0))
        && pre.all (fun j => !((tailAt g j).simple_tail = (tailAt g i).simple_tail))) = true ↔
      tier2Cond g pre i := by
  simp [tier2Cond, tier2CondB, List.all_eq_true, and_assoc]

theorem tier2Scan_first (g : AugGroup) :
    ∀ (l : List Nat) (pre : List Nat) (k : Nat), k < l.length →
      tier2Cond g (pre ++ l.take k) (l.getD k 0) →
      (∀ m, m < k → ¬tier2Cond g (pre ++ l.take m) (l.getD m 0)) →
      tier2Scan g pre l = some (l.getD k 0) := by
  intro l
  induction l with
  | nil =>
    intro pre k hk
    exact absurd hk (by simp)
  | cons i rest ih =>
    intro pre k hk hcond hmin
    match k with
    | 0 =>
      simp only [List.take_zero, List.append_nil, List.getD_cons_zero] at hcond ⊢
      unfold tier2Scan
      rw [if_pos ((tier2Scan_cond_iff g pre i).mpr hcond)]
    | k' + 1 =>
      have h0 : ¬tier2Cond g pre i := by
        have := hmin 0 (Nat.succ_pos k')
        simpa using this
      unfold tier2Scan
      rw [if_neg (fun hc => h0 ((tier2Scan_cond_iff g pre i).mp hc))]
      have hk' : k' < rest.length := by simpa using hk
      have hcond' : tier2Cond g ((pre ++ [i]) ++ rest.take k') (rest.getD k' 0) := by
        simpa [List.append_assoc, List.take_succ_cons] using hcond
      have hmin' : ∀ m, m < k' → ¬tier2Cond g ((pre ++ [i]) ++ rest.take m) (rest.getD m 0) := by
        intro m hm hc
        exact hmin (m+1) (by omega) (by simpa [List.append_assoc, List.take_succ_cons] using hc)
      have := ih (pre ++ [i]) k' hk' hcond' hmin'
      rw [this]
      simp [List.getD_cons_succ]

/-- Claim C2: when tier 1 does not apply (the first tail's value is not
unique and the position's state is not already FIRST_TAIL), `choose_tail`
scans the stub list from the first tail forward and selects the first Tail T
such that (a) `T.tail_value_found == 1` across the whole group, (b)
`T.tail_found[q] >= 1` for every `q` in `1..=max_position`, and (c) no
earlier Tail in the scan has T's simplified tail; it records the first
tail, sets the position's state to CHOSEN_TAIL_START and returns T. -/
theorem claim2_tier2_selection (g : AugGroup) (pos : Nat) (s0 : Nat) (rest : List Nat)
    (ft : Nat × List Nat) (k : Nat)
    (hstubs : g.tails_at_position pos = s0 :: rest)
    (hft : findFirstTailSfx g s0 rest = ft)
    (h1 : (tailAt g ft.1).tail_value_found ≠ 1)
    (h1b : g.chosen_tail_state pos ≠ .FIRST_TAIL)
    (hk : k < (ft.1 :: ft.2).length)
    (hcond : tier2Cond g ((ft.1 :: ft.2).take k) ((ft.1 :: ft.2).getD k 0))
    (hmin : ∀ m, m < k → ¬tier2Cond g ((ft.1 :: ft.2).take m) ((ft.1 :: ft.2).getD m 0)) :
    choose_tail g pos =
      ({ g with first_tail := setFun g.first_tail pos (some ft.1),
                chosen_tail_state := setFun g.chosen_tail_state pos .CHOSEN_TAIL_START },
       some ((ft.1 :: ft.2).getD k 0)) := by
  have hta : ∀ i, tailAt { g with first_tail := setFun g.first_tail pos (some ft.1) } i
      = tailAt g i := fun _ => rfl
  have hcs : ({ g with first_tail := setFun g.first_tail pos (some ft.1) }).chosen_tail_state
      = g.chosen_tail_state := rfl
  unfold choose_tail
  rw [hstubs]
  dsimp only
  rw [hft]
  rw [hta ft.1, if_neg h1]
  rw [hcs, if_neg h1b]
  rw [tier2Scan_first { g with first_tail := setFun g.first_tail pos (some ft.1) }
    (ft.1 :: ft.2) [] k hk (by simpa using hcond)
    (fun m hm hc => hmin m hm (by simpa using hc))]

/-- Witness for `claim2_tier2_selection` on the fixture group: at position 1
the first tail `/a = u` is not unique, and the scan picks the second stub
`/b = x` (index 1 at scan offset `k = 1`). -/
theorem claim2_tier2_selection_witness :
    choose_tail tier2FixtureGroup 1 =
      ({ tier2FixtureGroup with
          first_tail := setFun tier2FixtureGroup.first_tail 1 (some 0),
          chosen_tail_state := setFun tier2FixtureGroup.chosen_tail_state 1 .CHOSEN_TAIL_START },
       some 1) :=
  claim2_tier2_selection tier2FixtureGroup 1 0 [1] (0, [1]) 1
    (by decide) (by decide) (by decide) (fun h => chosen_tail_state_t.noConfusion h)
    (by decide) (by decide) (by decide)

theorem getD_set_self_grp (l : List AugGroup) (i : Nat) (a : AugGroup) (h : i < l.length) :
    (l.set i a).getD i default = a := by
  simp [List.getD_eq_getElem?_getD, List.getElem?_set, h]

theorem mapIdx_congr_fun : ∀ (l : List α) (f g : Nat → α → β), (∀ i a, f i a = g i a) →
    l.mapIdx f = l.mapIdx g := by
  intro l
  induction l with
  | nil => intro f g h; rfl
  | cons c l ih =>
    intro f g h
    simp only [List.mapIdx_cons, h 0 c]
    rw [ih (fun i a => f (i+1) a) (fun i a => g (i+1) a) (fun i a => h (i+1) a)]

theorem mapIdx_const_map (f : α → β) : ∀ l : List α, l.mapIdx (fun _ a => f a) = l.map f := by
  intro l
  induction l with
  | nil => rfl
  | cons c l ih => simp only [List.mapIdx_cons, List.map_cons]; rw [ih]

theorem emitSeq_done_rec (cfg : Config) (gi pos ci : Nat) :
    ∀ (es : List (path_segment × Str)) (groups : List AugGroup) (g : AugGroup) (plain : Str),
      groups.getD gi default = g →
      g.chosen_tail_state pos = .CHOSEN_TAIL_DONE →
      g.chosen_tail pos = some ci →
      renderPlain cfg g pos (tailAt g ci) = some plain →
      (∀ e ∈ es, e.1.group = some gi ∧ e.1.position = some pos ∧
        (e.1.segment.getLast?).isSome = true) →
      emitSeq cfg groups es =
        some (es.map (fun e =>
          segText cfg e.1.segment (e.1.segment.getLast?.getD ' ') ++ plain), groups) := by
  intro es
  induction es with
  | nil => intro groups g plain hg hstate hchosen hrp hrec; rfl
  | cons e rest ih =>
    intro groups g plain hg hstate hchosen hrp hrec
    obtain ⟨hgrp, hpos, hsome⟩ := hrec e (List.mem_cons_self e rest)
    obtain ⟨lc, hlc⟩ := Option.isSome_iff_exists.mp hsome
    simp only [List.map_cons, emitSeq, output_segment, hlc, hgrp, hpos, Option.getD_some,
      hg, hstate, hchosen, hrp]
    rw [ih groups g plain hg hstate hchosen hrp
      (fun e2 he2 => hrec e2 (List.mem_cons_of_mem e he2))]

theorem emitSeq_wip_rec (cfg : Config) (gi pos ci : Nat) (cq : Str) :
    ∀ (es : List (path_segment × Str)) (groups : List AugGroup) (g : AugGroup) (plain wip : Str),
      gi < groups.length →
      groups.getD gi default = g →
      g.chosen_tail_state pos = .CHOSEN_TAIL_WIP →
      g.chosen_tail pos = some ci →
      (tailAt g ci).value_qq = some cq →
      renderPlain cfg g pos (tailAt g ci) = some plain →
      renderWip cfg g pos (tailAt g ci) = some wip →
      (∀ e ∈ es, e.1.group = some gi ∧ e.1.position = some pos ∧
        (e.1.segment.getLast?).isSome = true) →
      ∃ groups2, emitSeq cfg groups es =
        some (es.mapIdx (fun i e =>
          segText cfg e.1.segment (e.1.segment.getLast?.getD ' ') ++
          (if (es.take i).any (fun e2 => matchesChosen (tailAt g ci) e2.1 cq e2.2)
           then plain else wip)), groups2) := by
  intro es
  induction es with
  | nil =>
    intro groups g plain wip hgi hg hstate hchosen hcq hrp hrw hrec
    exact ⟨groups, rfl⟩
  | cons e rest ih =>
    intro groups g plain wip hgi hg hstate hchosen hcq hrp hrw hrec
    obtain ⟨hgrp, hpos, hsome⟩ := hrec e (List.mem_cons_self e rest)
    obtain ⟨lc, hlc⟩ := Option.isSome_iff_exists.mp hsome
    have hrec' := fun e2 he2 => hrec e2 (List.mem_cons_of_mem e he2)
    simp only [List.mapIdx_cons, List.take_zero, List.any_nil, Bool.false_eq_true, if_false,
      emitSeq, output_segment, hlc, hgrp, hpos, Option.getD_some, hg, hstate, hchosen,
      hcq, hrw]
    by_cases hm1 : (tailAt g ci).simple_tail = e.1.simplified_tail
    · rw [if_pos hm1]
      by_cases hm2 : cq = e.2
      · rw [if_pos hm2]
        dsimp only
        have hg2 : (groups.set gi { g with chosen_tail_state := setFun g.chosen_tail_state pos .CHOSEN_TAIL_DONE }).getD gi default
            = { g with chosen_tail_state := setFun g.chosen_tail_state pos .CHOSEN_TAIL_DONE } :=
          getD_set_self_grp groups gi _ hgi
        have hst2 : ({ g with chosen_tail_state := setFun g.chosen_tail_state pos .CHOSEN_TAIL_DONE } : AugGroup).chosen_tail_state pos = .CHOSEN_TAIL_DONE :=
          setFun_self g.chosen_tail_state pos .CHOSEN_TAIL_DONE
        rw [emitSeq_done_rec cfg gi pos ci rest
          (groups.set gi { g with chosen_tail_state := setFun g.chosen_tail_state pos .CHOSEN_TAIL_DONE })
          { g with chosen_tail_state := setFun g.chosen_tail_state pos .CHOSEN_TAIL_DONE }
          plain hg2 hst2 hchosen hrp hrec']
        refine ⟨groups.set gi { g with chosen_tail_state := setFun g.chosen_tail_state pos .CHOSEN_TAIL_DONE }, ?_⟩
        have hMq : matchesChosen (tailAt g ci) e.1 cq e.2 = true := by
          simp [matchesChosen, hm1, hm2]
        simp only [Option.some.injEq, Prod.mk.injEq, List.cons.injEq, eq_self_iff_true,
          true_and, and_true]
        rw [mapIdx_congr_fun rest
          (fun i a => segText cfg a.1.segment (a.1.segment.getLast?.getD ' ') ++
            (if ((e :: rest).take (i+1)).any
                (fun e2 => matchesChosen (tailAt g ci) e2.1 cq e2.2) then plain else wip))
          (fun i a => segText cfg a.1.segment (a.1.segment.getLast?.getD ' ') ++ plain)
          (fun i a => by simp [List.take_succ_cons, List.any_cons, hMq])]
        rw [mapIdx_const_map]
      · rw [if_neg hm2]
        dsimp only
        obtain ⟨groups2, hrest⟩ := ih groups g plain wip hgi hg hstate hchosen hcq hrp hrw hrec'
        rw [hrest]
        refine ⟨groups2, ?_⟩
        have hMq : matchesChosen (tailAt g ci) e.1 cq e.2 = false := by
          simp [matchesChosen, hm2]
        simp only [Option.some.injEq, Prod.mk.injEq, List.cons.injEq, eq_self_iff_true,
          true_and, and_true]
        apply mapIdx_congr_fun
        intro i a
        simp only [List.take_succ_cons, List.any_cons, hMq, Bool.false_or]
    · rw [if_neg hm1]
      dsimp only
      obtain ⟨groups2, hrest⟩ := ih groups g plain wip hgi hg hstate hchosen hcq hrp hrw hrec'
      rw [hrest]
      refine ⟨groups2, ?_⟩
      have hMq : matchesChosen (tailAt g ci) e.1 cq e.2 = false := by
        simp [matchesChosen, hm1]
      simp only [Option.some.injEq, Prod.mk.injEq, List.cons.injEq, eq_self_iff_true,
        true_and, and_true]
      apply mapIdx_congr_fun
      intro i a
      simp only [List.take_succ_cons, List.any_cons, hMq, Bool.false_or]

theorem findFirstTailSfx_tails_congr (g g2 : AugGroup) (h : g.all_tails = g2.all_tails) :
    ∀ (rest : List Nat) (i : Nat), findFirstTailSfx g i rest = findFirstTailSfx g2 i rest := by
  intro rest
  induction rest with
  | nil => intro i; rfl
  | cons j rest2 ih =>
    intro i
    simp only [findFirstTailSfx, tailAt, h, ih]

theorem find_first_tail_tails_congr (g g2 : AugGroup) (h : g.all_tails = g2.all_tails) :
    ∀ l : List Nat, find_first_tail g l = find_first_tail g2 l := by
  intro l
  cases l with
  | nil => rfl
  | cons i rest => simp only [find_first_tail, findFirstTailSfx_tails_congr g g2 h rest i]

theorem emitSeq_plus_done_rec (cfg : Config) (gi pos ci fi : Nat) :
    ∀ (es : List (path_segment × Str)) (groups : List AugGroup) (g : AugGroup) (pstart : Str),
      groups.getD gi default = g →
      g.chosen_tail_state pos = .CHOSEN_TAIL_PLUS_FIRST_TAIL_DONE →
      g.chosen_tail pos = some ci →
      find_first_tail g (g.tails_at_position pos) = some fi →
      renderPlusStart cfg g pos (tailAt g fi) (tailAt g ci) = some pstart →
      (∀ e ∈ es, e.1.group = some gi ∧ e.1.position = some pos ∧
        (e.1.segment.getLast?).isSome = true) →
      emitSeq cfg groups es =
        some (es.map (fun e =>
          segText cfg e.1.segment (e.1.segment.getLast?.getD ' ') ++ pstart), groups) := by
  intro es
  induction es with
  | nil => intro groups g pstart hg hstate hchosen hff hrps hrec; rfl
  | cons e rest ih =>
    intro groups g pstart hg hstate hchosen hff hrps hrec
    obtain ⟨hgrp, hpos, hsome⟩ := hrec e (List.mem_cons_self e rest)
    obtain ⟨lc, hlc⟩ := Option.isSome_iff_exists.mp hsome
    simp only [List.map_cons, emitSeq, output_segment, hlc, hgrp, hpos, Option.getD_some,
      hg, hstate, hchosen, hff, hrps]
    rw [ih groups g pstart hg hstate hchosen hff hrps
      (fun e2 he2 => hrec e2 (List.mem_cons_of_mem e he2))]

theorem emitSeq_plus_wip_rec (cfg : Config) (gi pos ci fi : Nat) (cq : Str) :
    ∀ (es : List (path_segment × Str)) (groups : List AugGroup) (g : AugGroup)
      (pstart pwip : Str),
      gi < groups.length →
      groups.getD gi default = g →
      g.chosen_tail_state pos = .CHOSEN_TAIL_PLUS_FIRST_TAIL_WIP →
      g.chosen_tail pos = some ci →
      find_first_tail g (g.tails_at_position pos) = some fi →
      (tailAt g ci).value_qq = some cq →
      renderPlusStart cfg g pos (tailAt g fi) (tailAt g ci) = some pstart →
      renderPlusWip cfg g pos (tailAt g fi) (tailAt g ci) = some pwip →
      (∀ e ∈ es, e.1.group = some gi ∧ e.1.position = some pos ∧
        (e.1.segment.getLast?).isSome = true) →
      ∃ groups2, emitSeq cfg groups es =
        some (es.mapIdx (fun i e =>
          segText cfg e.1.segment (e.1.segment.getLast?.getD ' ') ++
          (if (es.take i).any (fun e2 => matchesChosen (tailAt g ci) e2.1 cq e2.2)
           then pstart else pwip)), groups2) := by
  intro es
  induction es with
  | nil =>
    intro groups g pstart pwip hgi hg hstate hchosen hff hcq hrps hrpw hrec
    exact ⟨groups, rfl⟩
  | cons e rest ih =>
    intro groups g pstart pwip hgi hg hstate hchosen hff hcq hrps hrpw hrec
    obtain ⟨hgrp, hpos, hsome⟩ := hrec e (List.mem_cons_self e rest)
    obtain ⟨lc, hlc⟩ := Option.isSome_iff_exists.mp hsome
    have hrec' := fun e2 he2 => hrec e2 (List.mem_cons_of_mem e he2)
    simp only [List.mapIdx_cons, List.take_zero, List.any_nil, Bool.false_eq_true, if_false,
      emitSeq, output_segment, hlc, hgrp, hpos, Option.getD_some, hg, hstate, hchosen,
      hff, hcq, hrpw]
    by_cases hm1 : (tailAt g ci).simple_tail = e.1.simplified_tail
    · rw [if_pos hm1]
      by_cases hm2 : cq = e.2
      · rw [if_pos hm2]
        dsimp only
        have hg2 : (groups.set gi { g with chosen_tail_state := setFun g.chosen_tail_state pos .CHOSEN_TAIL_PLUS_FIRST_TAIL_DONE }).getD gi default
            = { g with chosen_tail_state := setFun g.chosen_tail_state pos .CHOSEN_TAIL_PLUS_FIRST_TAIL_DONE } :=
          getD_set_self_grp groups gi _ hgi
        have hst2 : ({ g with chosen_tail_state := setFun g.chosen_tail_state pos .CHOSEN_TAIL_PLUS_FIRST_TAIL_DONE } : AugGroup).chosen_tail_state pos = .CHOSEN_TAIL_PLUS_FIRST_TAIL_DONE :=
          setFun_self g.chosen_tail_state pos .CHOSEN_TAIL_PLUS_FIRST_TAIL_DONE
        have hff2 : find_first_tail
            ({ g with chosen_tail_state := setFun g.chosen_tail_state pos .CHOSEN_TAIL_PLUS_FIRST_TAIL_DONE } : AugGroup)
            (({ g with chosen_tail_state := setFun g.chosen_tail_state pos .CHOSEN_TAIL_PLUS_FIRST_TAIL_DONE } : AugGroup).tails_at_position pos) = some fi :=
          (find_first_tail_tails_congr g
            { g with chosen_tail_state := setFun g.chosen_tail_state pos .CHOSEN_TAIL_PLUS_FIRST_TAIL_DONE }
            rfl (g.tails_at_position pos)) ▸ hff
        rw [emitSeq_plus_done_rec cfg gi pos ci fi rest
          (groups.set gi { g with chosen_tail_state := setFun g.chosen_tail_state pos .CHOSEN_TAIL_PLUS_FIRST_TAIL_DONE })
          { g with chosen_tail_state := setFun g.chosen_tail_state pos .CHOSEN_TAIL_PLUS_FIRST_TAIL_DONE }
          pstart hg2 hst2 hchosen hff2 hrps hrec']
        refine ⟨groups.set gi { g with chosen_tail_state := setFun g.chosen_tail_state pos .CHOSEN_TAIL_PLUS_FIRST_TAIL_DONE }, ?_⟩
        have hMq : matchesChosen (tailAt g ci) e.1 cq e.2 = true := by
          simp [matchesChosen, hm1, hm2]
        simp only [Option.some.injEq, Prod.mk.injEq, List.cons.injEq, eq_self_iff_true,
          true_and, and_true]
        rw [mapIdx_congr_fun rest
          (fun i a => segText cfg a.1.segment (a.1.segment.getLast?.getD ' ') ++
            (if ((e :: rest).take (i+1)).any
                (fun e2 => matchesChosen (tailAt g ci) e2.1 cq e2.2) then pstart else pwip))
          (fun i a => segText cfg a.1.segment (a.1.segment.getLast?.getD ' ') ++ pstart)
          (fun i a => by simp [List.take_succ_cons, List.any_cons, hMq])]
        rw [mapIdx_const_map]
      · rw [if_neg hm2]
        dsimp only
        obtain ⟨groups2, hrest⟩ :=
          ih groups g pstart pwip hgi hg hstate hchosen hff hcq hrps hrpw hrec'
        rw [hrest]
        refine ⟨groups2, ?_⟩
        have hMq : matchesChosen (tailAt g ci) e.1 cq e.2 = false := by
          simp [matchesChosen, hm2]
        simp only [Option.some.injEq, Prod.mk.injEq, List.cons.injEq, eq_self_iff_true,
          true_and, and_true]
        apply mapIdx_congr_fun
        intro i a
        simp only [List.take_succ_cons, List.any_cons, hMq, Bool.false_or]
    · rw [if_neg hm1]
      dsimp only
      obtain ⟨groups2, hrest⟩ :=
        ih groups g pstart pwip hgi hg hstate hchosen hff hcq hrps hrpw hrec'
      rw [hrest]
      refine ⟨groups2, ?_⟩
      have hMq : matchesChosen (tailAt g ci) e.1 cq e.2 = false := by
        simp [matchesChosen, hm1]
      simp only [Option.some.injEq, Prod.mk.injEq, List.cons.injEq, eq_self_iff_true,
        true_and, and_true]
      apply mapIdx_congr_fun
      intro i a
      simp only [List.take_succ_cons, List.any_cons, hMq, Bool.false_or]

/-- Claim C1 (amended): for a (group, position) disambiguated by tier 2
(state `CHOSEN_TAIL_START`) or by tier 3
(`CHOSEN_TAIL_PLUS_FIRST_TAIL_START`), the **first** emission at the
position prints the predicate without any disjunct (the plain predicate
for tier 2; the `first_tail and chosen_tail` conjunction for tier 3) — the
state machine moves to the WIP state only after printing — so the claimed
"including the first emission" is false; every later record's line carries
the `or count(...)=0` disjunct up to **and including** the first subsequent
record whose own (simplified tail, quoted value) matches the chosen tail,
and all lines after that matching record print the disjunct-free predicate
again.  Records are arbitrary per-line segments of the position, so the
match test compares each record's own simplified tail and quoted value. -/
theorem claim1_disjunct_lines :
    (∀ (cfg : Config) (gi pos ci : Nat) (cq : Str) (groups : List AugGroup) (g : AugGroup)
      (plain wip : Str) (e0 : path_segment × Str) (es : List (path_segment × Str)),
      gi < groups.length →
      groups.getD gi default = g →
      g.chosen_tail_state pos = .CHOSEN_TAIL_START →
      g.chosen_tail pos = some ci →
      (tailAt g ci).value_qq = some cq →
      renderPlain cfg g pos (tailAt g ci) = some plain →
      renderWip cfg g pos (tailAt g ci) = some wip →
      (∀ e ∈ e0 :: es, e.1.group = some gi ∧ e.1.position = some pos ∧
        (e.1.segment.getLast?).isSome = true) →
      ∃ groups2, emitSeq cfg groups (e0 :: es) =
        some ((segText cfg e0.1.segment (e0.1.segment.getLast?.getD ' ') ++ plain) ::
          es.mapIdx (fun i e =>
            segText cfg e.1.segment (e.1.segment.getLast?.getD ' ') ++
            (if (es.take i).any (fun e2 => matchesChosen (tailAt g ci) e2.1 cq e2.2)
             then plain else wip)), groups2)) ∧
    (∀ (cfg : Config) (gi pos ci fi : Nat) (cq : Str) (groups : List AugGroup) (g : AugGroup)
      (pstart pwip : Str) (e0 : path_segment × Str) (es : List (path_segment × Str)),
      gi < groups.length →
      groups.getD gi default = g →
      g.chosen_tail_state pos = .CHOSEN_TAIL_PLUS_FIRST_TAIL_START →
      g.chosen_tail pos = some ci →
      find_first_tail g (g.tails_at_position pos) = some fi →
      (tailAt g ci).value_qq = some cq →
      renderPlusStart cfg g pos (tailAt g fi) (tailAt g ci) = some pstart →
      renderPlusWip cfg g pos (tailAt g fi) (tailAt g ci) = some pwip →
      (∀ e ∈ e0 :: es, e.1.group = some gi ∧ e.1.position = some pos ∧
        (e.1.segment.getLast?).isSome = true) →
      ∃ groups2, emitSeq cfg groups (e0 :: es) =
        some ((segText cfg e0.1.segment (e0.1.segment.getLast?.getD ' ') ++ pstart) ::
          es.mapIdx (fun i e =>
            segText cfg e.1.segment (e.1.segment.getLast?.getD ' ') ++
            (if (es.take i).any (fun e2 => matchesChosen (tailAt g ci) e2.1 cq e2.2)
             then pstart else pwip)), groups2)) := by
  constructor
  · intro cfg gi pos ci cq groups g plain wip e0 es hgi hg hstate hchosen hcq hrp hrw hrec
    obtain ⟨hgrp, hpos, hsome⟩ := hrec e0 (List.mem_cons_self e0 es)
    obtain ⟨lc, hlc⟩ := Option.isSome_iff_exists.mp hsome
    have hg2 : (groups.set gi { g with chosen_tail_state := setFun g.chosen_tail_state pos .CHOSEN_TAIL_WIP }).getD gi default
        = { g with chosen_tail_state := setFun g.chosen_tail_state pos .CHOSEN_TAIL_WIP } :=
      getD_set_self_grp groups gi _ hgi
    have hst2 : ({ g with chosen_tail_state := setFun g.chosen_tail_state pos .CHOSEN_TAIL_WIP } : AugGroup).chosen_tail_state pos = .CHOSEN_TAIL_WIP :=
      setFun_self g.chosen_tail_state pos .CHOSEN_TAIL_WIP
    have hgi2 : gi < (groups.set gi { g with chosen_tail_state := setFun g.chosen_tail_state pos .CHOSEN_TAIL_WIP }).length := by
      simpa using hgi
    obtain ⟨groups2, hrest⟩ := emitSeq_wip_rec cfg gi pos ci cq es
      (groups.set gi { g with chosen_tail_state := setFun g.chosen_tail_state pos .CHOSEN_TAIL_WIP })
      { g with chosen_tail_state := setFun g.chosen_tail_state pos .CHOSEN_TAIL_WIP }
      plain wip hgi2 hg2 hst2 hchosen hcq hrp hrw
      (fun e2 he2 => hrec e2 (List.mem_cons_of_mem e0 he2))
    refine ⟨groups2, ?_⟩
    simp only [emitSeq, output_segment, hlc, hgrp, hpos, Option.getD_some,
      hg, hstate, hchosen, hrp]
    rw [hrest]
    rfl
  · intro cfg gi pos ci fi cq groups g pstart pwip e0 es hgi hg hstate hchosen hff hcq
      hrps hrpw hrec
    obtain ⟨hgrp, hpos, hsome⟩ := hrec e0 (List.mem_cons_self e0 es)
    obtain ⟨lc, hlc⟩ := Option.isSome_iff_exists.mp hsome
    have hg2 : (groups.set gi { g with chosen_tail_state := setFun g.chosen_tail_state pos .CHOSEN_TAIL_PLUS_FIRST_TAIL_WIP }).getD gi default
        = { g with chosen_tail_state := setFun g.chosen_tail_state pos .CHOSEN_TAIL_PLUS_FIRST_TAIL_WIP } :=
      getD_set_self_grp groups gi _ hgi
    have hst2 : ({ g with chosen_tail_state := setFun g.chosen_tail_state pos .CHOSEN_TAIL_PLUS_FIRST_TAIL_WIP } : AugGroup).chosen_tail_state pos = .CHOSEN_TAIL_PLUS_FIRST_TAIL_WIP :=
      setFun_self g.chosen_tail_state pos .CHOSEN_TAIL_PLUS_FIRST_TAIL_WIP
    have hgi2 : gi < (groups.set gi { g with chosen_tail_state := setFun g.chosen_tail_state pos .CHOSEN_TAIL_PLUS_FIRST_TAIL_WIP }).length := by
      simpa using hgi
    have hff2 : find_first_tail
        ({ g with chosen_tail_state := setFun g.chosen_tail_state pos .CHOSEN_TAIL_PLUS_FIRST_TAIL_WIP } : AugGroup)
        (({ g with chosen_tail_state := setFun g.chosen_tail_state pos .CHOSEN_TAIL_PLUS_FIRST_TAIL_WIP } : AugGroup).tails_at_position pos) = some fi :=
      (find_first_tail_tails_congr g
        { g with chosen_tail_state := setFun g.chosen_tail_state pos .CHOSEN_TAIL_PLUS_FIRST_TAIL_WIP }
        rfl (g.tails_at_position pos)) ▸ hff
    obtain ⟨groups2, hrest⟩ := emitSeq_plus_wip_rec cfg gi pos ci fi cq es
      (groups.set gi { g with chosen_tail_state := setFun g.chosen_tail_state pos .CHOSEN_TAIL_PLUS_FIRST_TAIL_WIP })
      { g with chosen_tail_state := setFun g.chosen_tail_state pos .CHOSEN_TAIL_PLUS_FIRST_TAIL_WIP }
      pstart pwip hgi2 hg2 hst2 hchosen hff2 hcq hrps hrpw
      (fun e2 he2 => hrec e2 (List.mem_cons_of_mem e0 he2))
    refine ⟨groups2, ?_⟩
    simp only [emitSeq, output_segment, hlc, hgrp, hpos, Option.getD_some,
      hg, hstate, hchosen, hff, hrps]
    rw [hrest]
    rfl

/-- Witness for `claim1_disjunct_lines`: a tier-2 run on the ingested
fixture (records `'u'`, `'x'`, `'u'`, the middle one matching the chosen
tail `/b`) and a tier-3 run on the hand-built third-preference group
(records `'u'`, `'w'`, `'u'`): both emit plain, disjunct, plain. -/
theorem claim1_disjunct_lines_witness :
    (∃ groups2, emitSeq cfg0 c1FixtureGroups
        ((c1FixtureSegA, "'u'".data) ::
          [(c1FixtureSeg, "'x'".data), (c1FixtureSegA, "'u'".data)]) =
      some ((segText cfg0 c1FixtureSegA.segment (c1FixtureSegA.segment.getLast?.getD ' ')
          ++ "[b='x']".data) ::
        ([(c1FixtureSeg, "'x'".data), (c1FixtureSegA, "'u'".data)] :
            List (path_segment × Str)).mapIdx (fun i e =>
          segText cfg0 e.1.segment (e.1.segment.getLast?.getD ' ') ++
          (if (([(c1FixtureSeg, "'x'".data), (c1FixtureSegA, "'u'".data)] :
              List (path_segment × Str)).take i).any
              (fun e2 => matchesChosen (tailAt (c1FixtureGroups.getD 0 default) 1) e2.1
                "'x'".data e2.2)
           then "[b='x']".data else "[b='x' or count(b)=0]".data)), groups2)) ∧
    (∃ groups2, emitSeq cfg0 [plusEmitFixtureGroup]
        ((c1FixtureSegA, "'u'".data) ::
          [(c1FixtureSeg, "'w'".data), (c1FixtureSegA, "'u'".data)]) =
      some ((segText cfg0 c1FixtureSegA.segment (c1FixtureSegA.segment.getLast?.getD ' ')
          ++ "[a='u' and b='w']".data) ::
        ([(c1FixtureSeg, "'w'".data), (c1FixtureSegA, "'u'".data)] :
            List (path_segment × Str)).mapIdx (fun i e =>
          segText cfg0 e.1.segment (e.1.segment.getLast?.getD ' ') ++
          (if (([(c1FixtureSeg, "'w'".data), (c1FixtureSegA, "'u'".data)] :
              List (path_segment × Str)).take i).any
              (fun e2 => matchesChosen (tailAt ([plusEmitFixtureGroup].getD 0 default) 1) e2.1
                "'w'".data e2.2)
           then "[a='u' and b='w']".data
           else "[a='u' and ( b='w' or count(b)=0 ) ]".data)), groups2)) :=
  ⟨claim1_disjunct_lines.1 cfg0 0 1 1 "'x'".data c1FixtureGroups
      (c1FixtureGroups.getD 0 default) "[b='x']".data "[b='x' or count(b)=0]".data
      (c1FixtureSegA, "'u'".data) [(c1FixtureSeg, "'x'".data), (c1FixtureSegA, "'u'".data)]
      (by decide) rfl (by decide) (by decide) (by decide) (by decide) (by decide) (by decide),
   claim1_disjunct_lines.2 cfg0 0 1 1 0 "'w'".data [plusEmitFixtureGroup]
      ([plusEmitFixtureGroup].getD 0 default)
      "[a='u' and b='w']".data "[a='u' and ( b='w' or count(b)=0 ) ]".data
      (c1FixtureSegA, "'u'".data) [(c1FixtureSeg, "'w'".data), (c1FixtureSegA, "'u'".data)]
      (by decide) rfl (by decide) (by decide) (by decide) (by decide) (by decide) (by decide)
      (by decide)⟩

/-- Counterexample to claim C1 as stated: in the four-entry pipeline the
position-1 pair is resolved by tier 2, yet the first emitted line
`set /f/seq::*[b='x']/a 'u'` carries no `or count(...)=0` disjunct; the
disjunct appears only from the second line (the matching record's own
line). -/
theorem claim1_counterexample :
    run_pipeline cfg0 [("/f/1/a".data, some "u".data), ("/f/1/b".data, some "x".data),
      ("/f/2/a".data, some "u".data), ("/f/2/b".data, some "y".data)] =
      some ["set /f/seq::*[b='x']/a 'u'".data, "set /f/seq::*[b='x' or count(b)=0]/b 'x'".data,
            "set /f/seq::*[b='y']/a 'u'".data, "set /f/seq::*[b='y' or count(b)=0]/b 'y'".data] ∧
    ¬ List.IsInfix " or count(".data "set /f/seq::*[b='x']/a 'u'".data ∧
    List.IsInfix " or count(".data "set /f/seq::*[b='x' or count(b)=0]/b 'x'".data := by
  refine ⟨by decide, by decide, by decide⟩
